import Mathlib

/-!
Shallow embedding of the "tomato" Obsidian pomodoro plugin (src/main.ts,
class `BreakView`), covering the timer state machine, the markdown log-table
codec (`saveLogEntry`, `updateLogEntry`, `parseLogFile`), the per-day file
path construction, and the yearly statistics aggregation.

Documents are modelled as their list of lines (JS `content.split('\n')` /
`lines.join('\n')`); all needles searched in whole contents by the source
(`'## 番茄钟记录'`, the table header row) contain no newline, so
`content.includes(needle)` corresponds to some line including the needle.
JS string primitives (`trim`, `includes`, `startsWith`, `split`) are
re-implemented on `List Char` with JS semantics.
-/

namespace Tomato

/-! ## JS-style character and string primitives -/

/-- JS whitespace test restricted to space, tab, LF, CR (the characters that
occur in this code's data); `String.prototype.trim` strips these. -/
def wsChar (c : Char) : Bool :=
  c.toNat = 32 || c.toNat = 9 || c.toNat = 10 || c.toNat = 13

/-- ASCII digit test (regex `\d`). -/
def isDigitCh (c : Char) : Bool :=
  decide (48 ≤ c.toNat) && decide (c.toNat ≤ 57)

/-- Numeric value of an ASCII digit. -/
def digitVal (c : Char) : Nat := c.toNat - 48

/-- ASCII digit character for `n < 10`. -/
def digitChar (n : Nat) : Char := Char.ofNat (48 + n)

/-- Strip leading and trailing whitespace from a character list. -/
def trimChars (l : List Char) : List Char :=
  ((l.dropWhile wsChar).reverse.dropWhile wsChar).reverse

/-- JS `s.trim()`. -/
def jsTrim (s : String) : String := ⟨trimChars s.data⟩

/-- JS `s.startsWith(pre)`. -/
def jsStartsWith (s pre : String) : Bool := pre.data.isPrefixOf s.data

/-- JS `s.endsWith(suf)`. -/
def jsEndsWith (s suf : String) : Bool := suf.data.isSuffixOf s.data

/-- Substring occurrence on character lists (used for JS `includes`). -/
def containsSub (needle : List Char) : List Char → Bool
  | [] => needle.isPrefixOf []
  | c :: t => needle.isPrefixOf (c :: t) || containsSub needle t

/-- JS `s.includes(sub)`. -/
def jsIncludes (s sub : String) : Bool := containsSub sub.data s.data

/-- Split a character list at every occurrence of `sep`
(JS `s.split(sep)` for a one-character separator). -/
def splitSep (sep : Char) : List Char → List (List Char)
  | [] => [[]]
  | c :: cs =>
    match splitSep sep cs with
    | [] => [[]]
    | h :: t => if c = sep then [] :: h :: t else (c :: h) :: t

/-- The source's column extraction
`line.split('|').map(col => col.trim()).filter(col => col)`. -/
def jsCols (line : String) : List String :=
  ((splitSep '|' line.data).map (fun cs => String.mk (trimChars cs))).filter
    (fun c => !(c == ""))

/-- Decimal digits of `n`, fuel-driven so that it reduces in the kernel;
`natCharsAux (n+1) n` is always enough fuel. -/
def natCharsAux : Nat → Nat → List Char
  | 0, _ => []
  | fuel + 1, n =>
    if n < 10 then [digitChar n]
    else natCharsAux fuel (n / 10) ++ [digitChar (n % 10)]

/-- Decimal digit characters of a natural number. -/
def natChars (n : Nat) : List Char := natCharsAux (n + 1) n

/-- Decimal rendering of a natural number (JS number-to-string for
non-negative integers). -/
def natStr (n : Nat) : String := ⟨natChars n⟩

/-- Decimal rendering of an integer (JS template `${n}` for integers). -/
def intStr (i : Int) : String :=
  if i < 0 then "-" ++ natStr i.natAbs else natStr i.toNat

/-- Value of a digit string (JS `parseInt` on an all-digit capture). -/
def digitsVal (l : List Char) : Nat :=
  l.foldl (fun a c => 10 * a + digitVal c) 0

/-- Scanner for the regex `/(\d+)分钟/` from `parseLogFile`: state `none`
while looking for the start of a digit run, `some acc` while inside a run;
a run immediately followed by `分钟` yields its value; otherwise scanning
resumes after the run. -/
def scanDurS : Option Nat → List Char → Option Nat
  | _, [] => none
  | none, c :: cs =>
    if isDigitCh c then scanDurS (some (digitVal c)) cs else scanDurS none cs
  | some acc, c :: cs =>
    if isDigitCh c then scanDurS (some (10 * acc + digitVal c)) cs
    else if c = '分' ∧ cs.head? = some '钟' then some acc
    else scanDurS none cs

/-- Model of `durationText.match(/(\d+)分钟/)`, returning the captured integer. -/
def matchDuration (s : String) : Option Nat := scanDurS none s.data

/-- JS `Number(str)` restricted to the digit strings produced by splitting
an `HH:MM:SS` value (`""` is 0 in JS); a non-digit string gives NaN,
modelled as `none`. -/
def jsNumberChars (l : List Char) : Option Int :=
  if l = [] then some 0
  else if l.all isDigitCh then some (digitsVal l) else none

/-- Model of `start.split(':').map(Number)` destructured as `[h, m, s]`: fewer than
three components leaves a component `undefined` (NaN). -/
def timeParts (s : String) : Option (Int × Int × Int) :=
  match splitSep ':' s.data with
  | h :: m :: sec :: _ =>
    match jsNumberChars h, jsNumberChars m, jsNumberChars sec with
    | some a, some b, some c => some (a, b, c)
    | _, _, _ => none
  | _ => none

/-- JS `Math.round(k / 60)` for an integer `k`: floor of `k/60 + 1/2`. -/
def jsRoundDiv60 (k : Int) : Int := Int.fdiv (2 * k + 60) 120

/-- Model of `BreakView.calculateTimeDifference`: minute difference of two `HH:MM:SS`
strings via `setHours`, adding a day when the end is before the start.
The NaN outcome of unparseable components (never exercised by any theorem
below) is modelled as 0. -/
def calculateTimeDifference (start finish : String) : Int :=
  match timeParts start, timeParts finish with
  | some (h1, m1, s1), some (h2, m2, s2) =>
    let a := 3600 * h1 + 60 * m1 + s1
    let b := 3600 * h2 + 60 * m2 + s2
    let b2 := if b < a then b + 86400 else b
    jsRoundDiv60 (b2 - a)
  | _, _ => 0

/-! ## Log-table codec: constants and entry types -/

/-- The record heading `'## 番茄钟记录'`. -/
def markerStr : String := "## 番茄钟记录"

/-- The table header row. -/
def headerRowStr : String := "| 开始时间 | 结束时间 | 标签 | 备注 | 时长 |"

/-- The table separator row. -/
def sepRowStr : String := "|----------|----------|------|------|------|"

/-- The single-character string `"|"`. -/
def pipeStr : String := "|"

/-- Lines of the `tableHeader` fragment
`"\n## 番茄钟记录\n\n| 开始时间 | ... | 时长 |\n|----------|...|\n"`. -/
def tableHeaderLines : List String :=
  ["", markerStr, "", headerRowStr, sepRowStr, ""]

/-- An entry as produced by `parseLogFile` (notes are not parsed). -/
structure ParsedEntry where
  startTime : String
  endTime : String
  tag : String
  duration : Int
  deriving DecidableEq

/-! ## parseLogFile -/

/-- One iteration of the row loop of `BreakView.parseLogFile`: a blank or
non-`|` line is skipped (`continue`); a `|` line with at least five columns
whose first column is neither the header literal nor a separator becomes an
entry, its duration taken from the `分钟` match or else from
`calculateTimeDifference`. -/
def parseRowStep (acc : List ParsedEntry) (rawLine : String) : List ParsedEntry :=
  let line := jsTrim rawLine
  if line = "" ∨ jsStartsWith line pipeStr = false then acc
  else
    let columns := jsCols line
    if 5 ≤ columns.length ∧ ¬(columns.getD 0 "" = "开始时间") ∧
        jsIncludes (columns.getD 0 "") "---" = false then
      let startTime := columns.getD 0 ""
      let endTime := columns.getD 1 ""
      let tag := columns.getD 2 ""
      let durationText := columns.getD 4 ""
      let duration : Int :=
        match matchDuration durationText with
        | some d => (d : Int)
        | none => calculateTimeDifference startTime endTime
      acc ++ [⟨startTime, endTime, tag, duration⟩]
    else acc

/-- Model of `BreakView.parseLogFile` on the document's lines: locate the first line
containing the record heading, then fold the row loop over the lines from
two past it. -/
def parseLogFileLines (L : List String) : List ParsedEntry :=
  match L.findIdx? (fun l => jsIncludes l markerStr) with
  | none => []
  | some i => (L.drop (i + 2)).foldl parseRowStep []

/-! ## saveLogEntry -/

/-- A five-column table row in the source's format. -/
def rowCell5 (s e t n d5 : String) : String :=
  "| " ++ s ++ " | " ++ e ++ " | " ++ t ++ " | " ++ n ++ " | " ++ d5 ++ " |"

/-- The duplicate-check needle `` `| ${startTime} | ${endTime} | ${tag} |` ``. -/
def needleFor (s e t : String) : String :=
  "| " ++ s ++ " | " ++ e ++ " | " ++ t ++ " |"

/-- The fallback `durationMinutes || this.plugin.settings.workTime`: an absent or zero
duration falls back to the configured work time. -/
def finalDurationMinutes (w : Int) (dur? : Option Int) : Int :=
  match dur? with
  | none => w
  | some d => if d = 0 then w else d

/-- The `logEntry` row `` `| ${startTime} | ${endTime} | ${tag} | ${notes} |
${finalDurationMinutes}分钟 |` ``. -/
def logEntryRow (w : Int) (s e t n : String) (dur? : Option Int) : String :=
  rowCell5 s e t n (intStr (finalDurationMinutes w dur?) ++ "分钟")

/-- Lines of the string concatenation of two documents: the last line of the
first merges with the first line of the second. -/
def strConcatLines (L M : List String) : List String :=
  L.dropLast ++ ((L.getLastD "") ++ M.headD "") :: M.tail

/-- The test `content.endsWith('\n')` at the lines level: a non-empty content with a
trailing newline splits into at least two lines, the last empty. -/
def endsWithNewline (L : List String) : Prop :=
  2 ≤ L.length ∧ L.getLast? = some ""

instance (L : List String) : Decidable (endsWithNewline L) := by
  unfold endsWithNewline
  infer_instance

/-- The ensure-table step of `saveLogEntry` on an existing file: append the
`tableHeader` fragment when the record heading is absent. -/
def ensureTableLines (L : List String) : List String :=
  if L.any (fun l => jsIncludes l markerStr) then L
  else if endsWithNewline L then strConcatLines L tableHeaderLines
  else strConcatLines L (("" : String) :: tableHeaderLines)

/-- JS `lines.splice(n, 0, a)`: insert at `n`, clamped to the length. -/
def jsSplice0 (L : List String) (n : Nat) (a : String) : List String :=
  L.take n ++ a :: L.drop n

/-- The row-insertion step of `BreakView.saveLogEntry` (src/main.ts
1813-1836): when the header row is present, scan from two lines past it for
a trimmed `|` line containing the `(startTime, endTime, tag)` needle and
skip insertion on a hit, else splice the row in at `headerIndex + 2`; when
the header row is absent, append the row at the end. -/
def appendRowLines (w : Int) (L : List String) (s e t n : String)
    (dur? : Option Int) : List String :=
  let row := logEntryRow w s e t n dur?
  match L.findIdx? (fun l => jsIncludes l headerRowStr) with
  | some headerIndex =>
    let insertIndex := headerIndex + 2
    if (L.drop insertIndex).any (fun l =>
        jsStartsWith (jsTrim l) pipeStr && jsIncludes (jsTrim l) (needleFor s e t)) then
      L
    else jsSplice0 L insertIndex row
  | none =>
    if endsWithNewline L then strConcatLines L [row]
    else strConcatLines L [("" : String), row]

/-- Lines of the content `` `# ${dateString}\n\n${tableHeader}` `` with which
`saveLogEntry` creates a missing file. -/
def newFileLines (ds : String) : List String :=
  ["# " ++ ds, "", "", markerStr, "", headerRowStr, sepRowStr, ""]

/-- Model of `BreakView.saveLogEntry` on a file's lines (`none` = file absent, which
creates the dated skeleton first), followed by the row insertion. -/
def saveLogEntryLines (w : Int) (existing : Option (List String)) (ds : String)
    (s e t n : String) (dur? : Option Int) : List String :=
  match existing with
  | none => appendRowLines w (newFileLines ds) s e t n dur?
  | some L => appendRowLines w (ensureTableLines L) s e t n dur?

/-- A well-formed entry field: non-empty, free of `|` and newline (so the
row round-trips through the line/column codec), and without leading or
trailing whitespace (so column trimming preserves it). -/
def goodField (f : String) : Bool :=
  !f.data.isEmpty && f.data.all (fun c => !(c == '|') && !(c == '\n')) &&
    f.data.head?.all (fun c => !wsChar c) && f.data.getLast?.all (fun c => !wsChar c)

/-! ## updateLogEntry -/

/-- User-visible outcomes of `BreakView.updateLogEntry`: the `Notice` calls
`'备注已更新到日记文件'`, `'更新失败: 表格格式异常'`,
`'更新失败: 未找到对应的番茄钟记录'`, `'无法更新: 日记文件不存在'`.
The heading-absent early `return` emits no notice at all. -/
inductive UpdNotice where
  | updated
  | formatError
  | notFound
  | fileMissing
  deriving DecidableEq

/-- The row matcher of `updateLogEntry`: a trimmed line starting with `|`
whose first three (trimmed, non-empty) columns equal the key. -/
def rowMatchKeyB (s e t : String) (l : String) : Bool :=
  jsStartsWith (jsTrim l) pipeStr &&
    (let c := jsCols (jsTrim l)
     decide (5 ≤ c.length) && (c.getD 0 "" == s) && (c.getD 1 "" == e) &&
       (c.getD 2 "" == t))

/-- Model of `BreakView.updateLogEntry` (src/main.ts 1995-2063) after the file has
been read: heading absent is a silent `return`; a matching row is rebuilt
with the new notes in column four; no match reports not-found. -/
def updateLogEntryLines (L : List String) (s e t nn : String) :
    List String × Option UpdNotice :=
  match L.findIdx? (fun l => jsIncludes l markerStr) with
  | none => (L, none)
  | some i =>
    match (L.drop (i + 2)).findIdx? (rowMatchKeyB s e t) with
    | none => (L, some .notFound)
    | some j0 =>
      let j := i + 2 + j0
      let originalLine := L.getD j ""
      let columns := jsCols originalLine
      if 5 ≤ columns.length then
        (L.set j (rowCell5 (columns.getD 0 "") (columns.getD 1 "")
          (columns.getD 2 "") nn (columns.getD 4 "")), some .updated)
      else (L, some .formatError)

/-! ## File path construction -/

/-- The two `dateFormat` settings the source's `switch` distinguishes
(any other string falls into the `default` dash case). -/
inductive DateFormat where
  | dash
  | slash
  deriving DecidableEq

/-- The path-relevant settings. -/
structure PathSettings where
  diaryPath : String
  dateFormat : DateFormat
  deriving DecidableEq

/-- A calendar date; `month0` is 0-based as in JS `Date.getMonth()`. -/
structure SimpleDate where
  year : Nat
  month0 : Nat
  day : Nat
  deriving DecidableEq

/-- Model of `String(x).padStart(2, '0')` for month/day numbers. -/
def pad2 (n : Nat) : String := if n < 10 then "0" ++ natStr n else natStr n

/-- Model of `BreakView.getFileNameDate`: honours the `dateFormat` setting. -/
def getFileNameDate (fmt : DateFormat) (d : SimpleDate) : String :=
  match fmt with
  | .slash => natStr d.year ++ "/" ++ pad2 (d.month0 + 1) ++ "/" ++ pad2 d.day
  | .dash => natStr d.year ++ "-" ++ pad2 (d.month0 + 1) ++ "-" ++ pad2 d.day

/-- The effective `BreakView.getFormattedDate`: the class defines the method
twice and the later definition (src/main.ts 2506-2509,
`toISOString().split('T')[0]`) overrides the earlier one, so the effective
method returns the ISO `YYYY-MM-DD` date and ignores `dateFormat`. The
date's calendar components are taken as given (UTC/local offset is outside
the model). -/
def getFormattedDateEff (d : SimpleDate) : String :=
  natStr d.year ++ "-" ++ pad2 (d.month0 + 1) ++ "-" ++ pad2 d.day

/-- Model of `path.replace(/\\/g, '/')`. -/
def normSlashes (s : String) : String :=
  ⟨s.data.map (fun c => if c = '\\' then '/' else c)⟩

/-- The shared `<diaryPath>/<year>/<month>/<fileName>` construction used by
`saveLogEntry`, `updateLogEntry` and `loadPeriodLogData`: an empty (falsy)
diary path leaves the bare file name; otherwise the normalized diary path is
joined with the unpadded year, the padded month and the file name, and the
result is normalized again. -/
def buildDiaryPath (ps : PathSettings) (d : SimpleDate) (fileName : String) : String :=
  if ps.diaryPath = "" then normSlashes fileName
  else
    let np := normSlashes ps.diaryPath
    let full :=
      if jsEndsWith np "/" then
        np ++ natStr d.year ++ "/" ++ pad2 (d.month0 + 1) ++ "/" ++ fileName
      else
        np ++ "/" ++ natStr d.year ++ "/" ++ pad2 (d.month0 + 1) ++ "/" ++ fileName
    normSlashes full

/-- The path `saveLogEntry` writes: file name from `getFileNameDate`. -/
def savePathFor (ps : PathSettings) (d : SimpleDate) : String :=
  buildDiaryPath ps d (getFileNameDate ps.dateFormat d ++ ".md")

/-- The path `updateLogEntry` and `loadPeriodLogData` read: file name from
the effective `getFormattedDate`. -/
def updatePathFor (ps : PathSettings) (d : SimpleDate) : String :=
  buildDiaryPath ps d (getFormattedDateEff d ++ ".md")

/-- Model of `BreakView.updateLogEntry` at the vault level: resolve the path with the
effective `getFormattedDate`; a missing file reports
`'无法更新: 日记文件不存在'` and aborts. -/
def updateLogEntryVault (vault : String → Option (List String))
    (ps : PathSettings) (d : SimpleDate) (s e t nn : String) :
    Option (List String) × Option UpdNotice :=
  match vault (updatePathFor ps d) with
  | none => (none, some .fileMissing)
  | some L =>
    let r := updateLogEntryLines L s e t nn
    (some r.1, r.2)

/-! ## Yearly statistics -/

/-- The dates `loadPeriodLogData` enumerates for the yearly period:
`new Date(now.getFullYear(), month, 1)` for `month = 0..11` — the first day
of each month, twelve dates in all. -/
def yearlyDatesToLoad (y : Nat) : List SimpleDate :=
  (List.range 12).map (fun m => ⟨y, m, 1⟩)

/-- The yearly branch of `BreakView.loadPeriodLogData`: for each enumerated
date, resolve the path (via the effective `getFormattedDate`), and when the
file exists parse it; an absent file is skipped, not an error. -/
def loadYearlyLogData (ps : PathSettings) (y : Nat)
    (vault : String → Option (List String)) : List (SimpleDate × List ParsedEntry) :=
  (yearlyDatesToLoad y).filterMap (fun d =>
    (vault (updatePathFor ps d)).map (fun L => (d, parseLogFileLines L)))

/-- One monthly bucket (`monthName`, a locale display string, is omitted). -/
structure MonthStat where
  month : Nat
  minutes : Int
  deriving DecidableEq

/-- The aggregate built by `calculateYearlyStats`. -/
structure YearlyStats where
  totalMinutes : Int
  sessionCount : Nat
  monthlyData : List MonthStat
  deriving DecidableEq

/-- The reduction `entries.reduce((sum, entry) => sum + entry.duration, 0)`. -/
def sumDurations (es : List ParsedEntry) : Int :=
  es.foldl (fun a e => a + e.duration) 0

/-- The initial `monthlyData` array: twelve buckets, months 1-12, 0 minutes. -/
def initMonthly : List MonthStat :=
  (List.range 12).map (fun i => ⟨i + 1, 0⟩)

/-- One `logData.forEach` iteration of `calculateYearlyStats`: assign (not
add) the month's total minutes into the bucket at `date.getMonth()`. -/
def yearlyStep (st : YearlyStats) (item : SimpleDate × List ParsedEntry) : YearlyStats :=
  let monthIndex := item.1.month0
  let monthMinutes := sumDurations item.2
  { totalMinutes := st.totalMinutes + monthMinutes
    sessionCount := st.sessionCount + item.2.length
    monthlyData := st.monthlyData.set monthIndex
      ⟨(st.monthlyData.getD monthIndex ⟨0, 0⟩).month, monthMinutes⟩ }

/-- Model of `BreakView.calculateYearlyStats` (averages, a pure display reduction of
these fields, are omitted). -/
def calculateYearlyStats (logData : List (SimpleDate × List ParsedEntry)) : YearlyStats :=
  logData.foldl yearlyStep ⟨0, 0, initMonthly⟩

/-! ## Timer state machine -/

/-- The duration settings (`workTime`, `breakTime` in minutes). `Number()`
of a stored number is itself; the NaN guard concerns non-numeric stored
values, outside this model. -/
structure TimerSettings where
  workTime : Int
  breakTime : Int
  deriving DecidableEq

/-- The timer fields of `BreakView`, plus two observation counters:
`completionNotices` counts executions of the completion handling (the
`'专注时间结束！'` / `'休息时间结束！'` notice) and `logWrites` counts
`autoSavePomodoroLog` calls. -/
structure TimerState where
  timeLeft : Int
  isRunning : Bool
  isFocusMode : Bool
  isProcessingCompletion : Bool
  currentTag : String
  focusTime : Int
  breakTime : Int
  completionNotices : Nat
  logWrites : Nat
  deriving DecidableEq

/-- The validated focus minutes of `initializeTimerValues`: non-positive (or
NaN) falls back to the default 25, then clamped to at least 1. -/
def effFocusMinutes (cfg : TimerSettings) : Int :=
  max 1 (if cfg.workTime ≤ 0 then 25 else cfg.workTime)

/-- The validated break minutes (default 5). -/
def effBreakMinutes (cfg : TimerSettings) : Int :=
  max 1 (if cfg.breakTime ≤ 0 then 5 else cfg.breakTime)

/-- Model of `BreakView.initializeTimerValues`: re-read the duration for the current
mode into `timeLeft` (seconds). -/
def initializeTimerValues (cfg : TimerSettings) (st : TimerState) : TimerState :=
  if st.isFocusMode then
    { st with focusTime := effFocusMinutes cfg, timeLeft := effFocusMinutes cfg * 60 }
  else
    { st with breakTime := effBreakMinutes cfg, timeLeft := effBreakMinutes cfg * 60 }

/-- Model of `BreakView.startTimer`: in focus mode an empty tag aborts with a notice;
otherwise lock the tag, set running, re-initialize the duration and clear
the completion flag. -/
def startTimer (cfg : TimerSettings) (tag : String) (st : TimerState) : TimerState :=
  if st.isFocusMode = true ∧ tag = "" then st
  else
    { initializeTimerValues cfg { st with currentTag := tag, isRunning := true } with
      isProcessingCompletion := false }

/-- Model of `BreakView.clearTimer`: stop running (the interval object itself is
implicit in `isRunning`). -/
def clearTimer (st : TimerState) : TimerState := { st with isRunning := false }

/-- Model of `BreakView.pauseTimer`. -/
def pauseTimer (st : TimerState) : TimerState := clearTimer st

/-- The one-second interval callback of `BreakView.startTimer` (src/main.ts
1648-1684): bail out when not running or already completing; decrement
`timeLeft` floored at 0; on exactly 0 set the completing flag, stop the
timer, emit the completion notice, in focus mode write the log, flip the
mode and re-arm the duration for the new mode. -/
def tick (cfg : TimerSettings) (st : TimerState) : TimerState :=
  if st.isRunning = false ∨ st.isProcessingCompletion = true then st
  else
    let st1 := { st with timeLeft := max 0 (st.timeLeft - 1) }
    if st1.timeLeft = 0 then
      let st2 := clearTimer { st1 with isProcessingCompletion := true }
      if st2.isFocusMode then
        initializeTimerValues cfg
          { st2 with completionNotices := st2.completionNotices + 1,
                     logWrites := st2.logWrites + 1, isFocusMode := false }
      else
        initializeTimerValues cfg
          { st2 with completionNotices := st2.completionNotices + 1, isFocusMode := true }
    else st1

/-- Model of `BreakView.skipBreak`: stop the timer, flip the mode immediately,
re-initialize the duration, and stay stopped. -/
def skipBreak (cfg : TimerSettings) (st : TimerState) : TimerState :=
  let st1 := clearTimer st
  let st2 := initializeTimerValues cfg { st1 with isFocusMode := !st1.isFocusMode }
  { st2 with isRunning := false }

/-- The state after the constructor and `onOpen`'s `initializeTimerValues`. -/
def initialState (cfg : TimerSettings) : TimerState :=
  initializeTimerValues cfg
    { timeLeft := cfg.workTime * 60, isRunning := false, isFocusMode := true,
      isProcessingCompletion := false, currentTag := "",
      focusTime := cfg.workTime * 60, breakTime := cfg.breakTime * 60,
      completionNotices := 0, logWrites := 0 }

/-- States reachable from startup by any sequence of start, tick, pause and
skip operations (settings may change between operations). -/
inductive Reachable : TimerState → Prop where
  | init (cfg : TimerSettings) : Reachable (initialState cfg)
  | start (cfg : TimerSettings) (tag : String) {st : TimerState} :
      Reachable st → Reachable (startTimer cfg tag st)
  | tickStep (cfg : TimerSettings) {st : TimerState} :
      Reachable st → Reachable (tick cfg st)
  | pause {st : TimerState} : Reachable st → Reachable (pauseTimer st)
  | skip (cfg : TimerSettings) {st : TimerState} :
      Reachable st → Reachable (skipBreak cfg st)

/-! ## Foundations: substring search -/

theorem containsSub_iff (needle hay : List Char) :
    containsSub needle hay = true ↔ needle <:+: hay := by
  induction hay with
  | nil =>
    simp [containsSub, List.isPrefixOf_iff_prefix]
  | cons c t ih =>
    simp only [containsSub, Bool.or_eq_true, List.isPrefixOf_iff_prefix, ih,
      List.infix_cons_iff]

theorem jsIncludes_iff (s sub : String) :
    jsIncludes s sub = true ↔ sub.data <:+: s.data :=
  containsSub_iff sub.data s.data

theorem jsIncludes_eq_false (s sub : String) :
    jsIncludes s sub = false ↔ ¬ sub.data <:+: s.data := by
  rw [← jsIncludes_iff]
  cases jsIncludes s sub <;> simp

theorem jsIncludes_of_count_lt {s sub : String} {c : Char}
    (h : s.data.count c < sub.data.count c) : jsIncludes s sub = false := by
  rw [jsIncludes_eq_false]
  intro hinf
  exact absurd (hinf.sublist.count_le c) (by omega)

theorem jsStartsWith_iff (s pre : String) :
    jsStartsWith s pre = true ↔ pre.data <+: s.data :=
  List.isPrefixOf_iff_prefix

/-! ## Foundations: trimming -/

theorem trimChars_within (l : List Char) : trimChars l <:+: l := by
  unfold trimChars
  have h1 : l.dropWhile wsChar <:+ l := List.dropWhile_suffix wsChar
  have h2 : (l.dropWhile wsChar).reverse.dropWhile wsChar <:+
      (l.dropWhile wsChar).reverse := List.dropWhile_suffix wsChar
  have h3 := h2.reverse
  simp only [List.reverse_reverse] at h3
  exact h3.isInfix.trans h1.isInfix

theorem jsTrim_includes_mono {l n : String} (h : jsIncludes (jsTrim l) n = true) :
    jsIncludes l n = true := by
  rw [jsIncludes_iff] at h ⊢
  exact h.trans (trimChars_within l.data)

theorem dropWhile_eq_self_of_head {p : α → Bool} {l : List α}
    (h : ∀ c, l.head? = some c → p c = false) : l.dropWhile p = l := by
  cases l with
  | nil => rfl
  | cons a t => exact List.dropWhile_cons_of_neg (by simp [h a rfl])

theorem trimChars_eq_self {l : List Char}
    (hh : ∀ c, l.head? = some c → wsChar c = false)
    (hl : ∀ c, l.getLast? = some c → wsChar c = false) : trimChars l = l := by
  unfold trimChars
  rw [dropWhile_eq_self_of_head hh, dropWhile_eq_self_of_head (by
    intro c hc
    rw [List.head?_reverse] at hc
    exact hl c hc), List.reverse_reverse]

theorem dropWhile_append_last {p : α → Bool} {c : α} (h : p c = false) (xs : List α) :
    (xs ++ [c]).dropWhile p = xs.dropWhile p ++ [c] := by
  rw [List.dropWhile_append]
  cases hd : xs.dropWhile p <;> simp [h]

theorem trimChars_cons_of_neg {c : Char} {l : List Char} (h : wsChar c = false) :
    trimChars (c :: l) = c :: (l.reverse.dropWhile wsChar).reverse := by
  unfold trimChars
  rw [List.dropWhile_cons_of_neg (by simp [h]), List.reverse_cons,
    dropWhile_append_last h, List.reverse_append]
  simp

theorem mk_data (l : List Char) : (String.mk l).data = l := rfl

theorem mk_data_self (f : String) : String.mk f.data = f := rfl

/-! ## Foundations: goodField accessors -/

theorem goodField_ne_nil {f : String} (h : goodField f = true) : f.data ≠ [] := by
  simp only [goodField, Bool.and_eq_true, Bool.not_eq_true'] at h
  exact fun hn => by simp [hn] at h

theorem goodField_no_pipe {f : String} (h : goodField f = true) :
    ∀ c ∈ f.data, ¬ c = '|' := by
  simp only [goodField, Bool.and_eq_true, List.all_eq_true, Bool.not_eq_true'] at h
  intro c hc hcp
  have := h.1.1.2 c hc
  simp [hcp] at this

theorem goodField_no_newline {f : String} (h : goodField f = true) :
    ∀ c ∈ f.data, ¬ c = '\n' := by
  simp only [goodField, Bool.and_eq_true, List.all_eq_true, Bool.not_eq_true'] at h
  intro c hc hcp
  have := h.1.1.2 c hc
  simp [hcp] at this

theorem goodField_head {f : String} (h : goodField f = true) :
    ∀ c, f.data.head? = some c → wsChar c = false := by
  simp only [goodField, Bool.and_eq_true] at h
  intro c hc
  have := h.1.2
  rw [hc] at this
  simpa using this

theorem goodField_last {f : String} (h : goodField f = true) :
    ∀ c, f.data.getLast? = some c → wsChar c = false := by
  simp only [goodField, Bool.and_eq_true] at h
  intro c hc
  have := h.2
  rw [hc] at this
  simpa using this

theorem goodField_ne_empty {f : String} (h : goodField f = true) : ¬ f = "" := by
  intro hf
  exact goodField_ne_nil h (by simp [hf])

/-! ## Foundations: splitSep -/

theorem splitSep_ne_nil (sep : Char) (l : List Char) : splitSep sep l ≠ [] := by
  induction l with
  | nil => simp [splitSep]
  | cons c cs ih =>
    unfold splitSep
    cases h : splitSep sep cs with
    | nil => exact absurd h ih
    | cons a t =>
      by_cases hc : c = sep <;> simp [hc]

theorem splitSep_cons_eq (sep c : Char) (cs : List Char) {a : List Char}
    {t : List (List Char)} (h : splitSep sep cs = a :: t) :
    splitSep sep (c :: cs) = if c = sep then [] :: a :: t else (c :: a) :: t := by
  unfold splitSep
  rw [h]

theorem splitSep_append_of_no_sep {sep : Char} {l : List Char}
    (hl : ∀ c ∈ l, ¬ c = sep) {rest : List Char} {a : List Char}
    {t : List (List Char)} (h : splitSep sep rest = a :: t) :
    splitSep sep (l ++ rest) = (l ++ a) :: t := by
  induction l with
  | nil => simpa using h
  | cons c l ih =>
    have hc : ¬ c = sep := hl c (by simp)
    have hrec := ih (fun x hx => hl x (by simp [hx]))
    rw [List.cons_append, splitSep_cons_eq sep c _ hrec, if_neg hc]
    simp

theorem splitSep_block {f : String} (hf : ∀ c ∈ f.data, ¬ c = '|')
    {rest : List Char} {a : List Char} {t : List (List Char)}
    (h : splitSep '|' rest = a :: t) :
    splitSep '|' ('|' :: (' ' :: (f.data ++ [' '])) ++ rest) =
      [] :: (' ' :: (f.data ++ [' ']) ++ a) :: t := by
  have hcell : ∀ c ∈ ' ' :: (f.data ++ [' ']), ¬ c = '|' := by
    intro c hc
    simp only [List.mem_cons, List.mem_append, List.mem_singleton] at hc
    rcases hc with hc | hc | hc | hc
    · subst hc
      decide
    · exact hf c hc
    · subst hc
      decide
    · simp at hc
  have hin := splitSep_append_of_no_sep hcell h
  rw [List.cons_append, splitSep_cons_eq '|' '|' _ hin, if_pos rfl]

/-! ## Foundations: digits and decimal rendering -/

theorem digitChar_props {k : Nat} (hk : k < 10) :
    isDigitCh (digitChar k) = true ∧ digitVal (digitChar k) = k := by
  interval_cases k <;> exact ⟨by decide, by decide⟩

theorem isDigitCh_facts {c : Char} (h : isDigitCh c = true) :
    wsChar c = false ∧ ¬ c = '|' ∧ ¬ c = '\n' ∧ ¬ c = '分' ∧ ¬ c = '钟' := by
  simp only [isDigitCh, Bool.and_eq_true, decide_eq_true_eq] at h
  refine ⟨?_, ?_, ?_, ?_, ?_⟩
  · simp only [wsChar]
    simp only [Bool.or_eq_false_iff, decide_eq_false_iff_not]
    omega
  · intro hc
    rw [hc] at h
    simp at h
  · intro hc
    rw [hc] at h
    simp at h
  · intro hc
    rw [hc] at h
    revert h
    decide
  · intro hc
    rw [hc] at h
    revert h
    decide

theorem digitsVal_append_digit (l : List Char) (c : Char) :
    digitsVal (l ++ [c]) = 10 * digitsVal l + digitVal c := by
  simp [digitsVal, List.foldl_append]

theorem natCharsAux_spec :
    ∀ fuel n, n < fuel →
      natCharsAux fuel n ≠ [] ∧ (∀ c ∈ natCharsAux fuel n, isDigitCh c = true) ∧
        digitsVal (natCharsAux fuel n) = n := by
  intro fuel
  induction fuel with
  | zero => intro n hn; omega
  | succ fuel ih =>
    intro n hn
    by_cases h10 : n < 10
    · refine ⟨by simp [natCharsAux, h10], ?_, ?_⟩
      · intro c hc
        simp only [natCharsAux, if_pos h10, List.mem_singleton] at hc
        exact hc ▸ (digitChar_props h10).1
      · simp [natCharsAux, if_pos h10, digitsVal, (digitChar_props h10).2]
    · have hdiv : n / 10 < fuel := by omega
      obtain ⟨hne, hdig, hval⟩ := ih (n / 10) hdiv
      have hmod : n % 10 < 10 := Nat.mod_lt _ (by omega)
      refine ⟨by simp [natCharsAux, if_neg h10], ?_, ?_⟩
      · intro c hc
        simp only [natCharsAux, if_neg h10, List.mem_append, List.mem_singleton] at hc
        rcases hc with hc | hc
        · exact hdig c hc
        · exact hc ▸ (digitChar_props hmod).1
      · rw [show natCharsAux (fuel + 1) n =
            natCharsAux fuel (n / 10) ++ [digitChar (n % 10)] by
            simp [natCharsAux, if_neg h10]]
        rw [digitsVal_append_digit, hval, (digitChar_props hmod).2]
        omega

theorem natChars_spec (n : Nat) :
    natChars n ≠ [] ∧ (∀ c ∈ natChars n, isDigitCh c = true) ∧
      digitsVal (natChars n) = n :=
  natCharsAux_spec (n + 1) n (by omega)

/-! ## Foundations: the duration regex scanner -/

theorem scanDurS_run (ds : List Char) (hds : ∀ c ∈ ds, isDigitCh c = true)
    (a : Nat) (rest : List Char) :
    scanDurS (some a) (ds ++ '分' :: '钟' :: rest) =
      some (ds.foldl (fun x c => 10 * x + digitVal c) a) := by
  induction ds generalizing a with
  | nil =>
    simp only [List.nil_append, List.foldl_nil, scanDurS]
    rw [if_neg (by decide), if_pos (by simp)]
  | cons d ds ih =>
    have hd : isDigitCh d = true := hds d (by simp)
    simp only [List.cons_append, scanDurS, if_pos hd, List.foldl_cons]
    exact ih (fun c hc => hds c (by simp [hc])) _

theorem matchDuration_digits (ds : List Char) (hne : ds ≠ [])
    (hds : ∀ c ∈ ds, isDigitCh c = true) (suffix : String)
    (hsuf : suffix.data = ['分', '钟']) :
    matchDuration (String.mk ds ++ suffix) = some (digitsVal ds) := by
  obtain ⟨d, ds', rfl⟩ := List.exists_cons_of_ne_nil hne
  have hd : isDigitCh d = true := hds d (by simp)
  unfold matchDuration
  rw [String.data_append, mk_data, hsuf]
  simp only [List.cons_append, scanDurS, if_pos hd]
  show scanDurS (some (digitVal d)) (ds' ++ '分' :: '钟' :: []) =
    some (digitsVal (d :: ds'))
  rw [scanDurS_run ds' (fun c hc => hds c (by simp [hc]))]
  simp [digitsVal]

theorem matchDuration_natStr (m : Nat) :
    matchDuration (natStr m ++ "分钟") = some m := by
  obtain ⟨hne, hdig, hval⟩ := natChars_spec m
  have := matchDuration_digits (natChars m) hne hdig "分钟" (by decide)
  rw [show String.mk (natChars m) = natStr m from rfl] at this
  rw [this, hval]

/-! ## Foundations: rows and columns -/

theorem rowCell5_data (s e t n d5 : String) :
    (rowCell5 s e t n d5).data =
      '|' :: (' ' :: (s.data ++ [' '])) ++ '|' :: (' ' :: (e.data ++ [' '])) ++
        '|' :: (' ' :: (t.data ++ [' '])) ++ '|' :: (' ' :: (n.data ++ [' '])) ++
          '|' :: (' ' :: (d5.data ++ [' '])) ++ ['|'] := by
  have h1 : ("| " : String).data = ['|', ' '] := rfl
  have h2 : (" | " : String).data = [' ', '|', ' '] := rfl
  have h3 : (" |" : String).data = [' ', '|'] := rfl
  simp [rowCell5, h1, h2, h3]

theorem needleFor_data (s e t : String) :
    (needleFor s e t).data =
      '|' :: (' ' :: (s.data ++ [' '])) ++ '|' :: (' ' :: (e.data ++ [' '])) ++
        '|' :: (' ' :: (t.data ++ [' '])) ++ ['|'] := by
  have h1 : ("| " : String).data = ['|', ' '] := rfl
  have h2 : (" | " : String).data = [' ', '|', ' '] := rfl
  have h3 : (" |" : String).data = [' ', '|'] := rfl
  simp [needleFor, h1, h2, h3]

theorem rowCell5_includes_needle (s e t n d5 : String) :
    jsIncludes (rowCell5 s e t n d5) (needleFor s e t) = true := by
  rw [jsIncludes_iff]
  refine List.IsPrefix.isInfix
    ⟨' ' :: (n.data ++ [' ']) ++ '|' :: (' ' :: (d5.data ++ [' '])) ++ ['|'], ?_⟩
  rw [rowCell5_data, needleFor_data]
  simp

theorem jsStartsWith_rowCell5_pipe (s e t n d5 : String) :
    jsStartsWith (rowCell5 s e t n d5) pipeStr = true := by
  rw [jsStartsWith_iff, rowCell5_data]
  exact ⟨_, rfl⟩

theorem jsTrim_rowCell5 (s e t n d5 : String) :
    jsTrim (rowCell5 s e t n d5) = rowCell5 s e t n d5 := by
  have hh : ∀ c, (rowCell5 s e t n d5).data.head? = some c → wsChar c = false := by
    intro c hc
    rw [rowCell5_data] at hc
    simp only [List.cons_append, List.head?_cons, Option.some.injEq] at hc
    subst hc
    decide
  have hl : ∀ c, (rowCell5 s e t n d5).data.getLast? = some c → wsChar c = false := by
    intro c hc
    rw [← List.head?_reverse, rowCell5_data] at hc
    simp only [List.reverse_append, List.reverse_cons, List.reverse_nil,
      List.nil_append, List.cons_append, List.append_assoc, List.head?_cons,
      Option.some.injEq] at hc
    subst hc
    decide
  unfold jsTrim
  rw [trimChars_eq_self hh hl]

theorem trimChars_cell {f : String} (hne : f.data ≠ [])
    (hh : ∀ c, f.data.head? = some c → wsChar c = false)
    (hl : ∀ c, f.data.getLast? = some c → wsChar c = false) :
    trimChars (' ' :: (f.data ++ [' '])) = f.data := by
  obtain ⟨a, rest, hf⟩ := List.exists_cons_of_ne_nil hne
  have ha : wsChar a = false := hh a (by rw [hf]; rfl)
  unfold trimChars
  rw [List.dropWhile_cons_of_pos (by decide), hf, List.cons_append,
    List.dropWhile_cons_of_neg (by simp [ha]),
    show a :: (rest ++ [' ']) = (a :: rest) ++ [' '] from rfl,
    List.reverse_append]
  rw [show ([' '] : List Char).reverse ++ (a :: rest).reverse =
    ' ' :: (a :: rest).reverse from rfl]
  rw [List.dropWhile_cons_of_pos (by decide),
    dropWhile_eq_self_of_head ?hhead, List.reverse_reverse]
  case hhead =>
    intro c hc
    rw [List.head?_reverse] at hc
    apply hl
    rw [hf]
    exact hc

theorem goodField_beq_empty {f : String} (h : goodField f = true) :
    (f == "") = false := by
  rw [beq_eq_false_iff_ne]
  exact goodField_ne_empty h

theorem jsCols_rowCell5 {s e t n d5 : String} (hs : goodField s = true)
    (he : goodField e = true) (ht : goodField t = true)
    (hn : goodField n = true) (hd5 : goodField d5 = true) :
    jsCols (rowCell5 s e t n d5) = [s, e, t, n, d5] := by
  have u0 : splitSep '|' ['|'] = [[], []] := by decide
  have u1 := splitSep_block (goodField_no_pipe hd5) u0
  have u2 := splitSep_block (goodField_no_pipe hn) u1
  have u3 := splitSep_block (goodField_no_pipe ht) u2
  have u4 := splitSep_block (goodField_no_pipe he) u3
  have u5 := splitSep_block (goodField_no_pipe hs) u4
  unfold jsCols
  rw [rowCell5_data]
  rw [show ('|' :: (' ' :: (s.data ++ [' '])) ++ '|' :: (' ' :: (e.data ++ [' '])) ++
        '|' :: (' ' :: (t.data ++ [' '])) ++ '|' :: (' ' :: (n.data ++ [' '])) ++
          '|' :: (' ' :: (d5.data ++ [' '])) ++ ['|'] : List Char) =
      '|' :: (' ' :: (s.data ++ [' '])) ++ ('|' :: (' ' :: (e.data ++ [' '])) ++
        ('|' :: (' ' :: (t.data ++ [' '])) ++ ('|' :: (' ' :: (n.data ++ [' '])) ++
          ('|' :: (' ' :: (d5.data ++ [' '])) ++ ['|'])))) by simp]
  rw [u5]
  simp only [List.append_nil, List.map_cons, List.map_nil]
  rw [show trimChars ([] : List Char) = [] from rfl,
    trimChars_cell (goodField_ne_nil hs) (goodField_head hs) (goodField_last hs),
    trimChars_cell (goodField_ne_nil he) (goodField_head he) (goodField_last he),
    trimChars_cell (goodField_ne_nil ht) (goodField_head ht) (goodField_last ht),
    trimChars_cell (goodField_ne_nil hn) (goodField_head hn) (goodField_last hn),
    trimChars_cell (goodField_ne_nil hd5) (goodField_head hd5) (goodField_last hd5)]
  simp only [mk_data_self]
  rw [show String.mk ([] : List Char) = "" from rfl]
  simp [List.filter, goodField_beq_empty hs, goodField_beq_empty he,
    goodField_beq_empty ht, goodField_beq_empty hn, goodField_beq_empty hd5]

theorem goodField_intro {f : String} (h1 : f.data ≠ [])
    (h2 : ∀ c ∈ f.data, ¬ c = '|' ∧ ¬ c = '\n')
    (h3 : ∀ c, f.data.head? = some c → wsChar c = false)
    (h4 : ∀ c, f.data.getLast? = some c → wsChar c = false) :
    goodField f = true := by
  simp only [goodField, Bool.and_eq_true, List.all_eq_true]
  refine ⟨⟨⟨by simpa using h1, ?_⟩, ?_⟩, ?_⟩
  · intro c hc
    obtain ⟨hp, hn⟩ := h2 c hc
    simp [hp, hn]
  · cases hh : f.data.head? with
    | none => simp [Option.all]
    | some c => simpa [Option.all] using h3 c hh
  · cases hh : f.data.getLast? with
    | none => simp [Option.all]
    | some c => simpa [Option.all] using h4 c hh

theorem goodField_durText (i : Int) : goodField (intStr i ++ "分钟") = true := by
  have hfen : (("分钟" : String)).data = ['分', '钟'] := rfl
  unfold intStr
  split
  case isTrue h =>
    obtain ⟨hne, hdig, _⟩ := natChars_spec i.natAbs
    apply goodField_intro
    · simp [natStr, hfen]
    · intro c hc
      rw [show ((("-" ++ natStr i.natAbs) ++ "分钟" : String)).data =
        '-' :: (natChars i.natAbs ++ ['分', '钟']) from rfl] at hc
      rcases List.mem_cons.mp hc with hc | hc
      · subst hc
        exact ⟨by decide, by decide⟩
      · rcases List.mem_append.mp hc with hc | hc
        · obtain ⟨_, hp, hnl, _, _⟩ := isDigitCh_facts (hdig c hc)
          exact ⟨hp, hnl⟩
        · rcases List.mem_cons.mp hc with hc | hc
          · subst hc
            exact ⟨by decide, by decide⟩
          · rcases List.mem_cons.mp hc with hc | hc
            · subst hc
              exact ⟨by decide, by decide⟩
            · simp at hc
    · intro c hc
      rw [show ((("-" ++ natStr i.natAbs) ++ "分钟" : String)).data.head? =
        some '-' from rfl] at hc
      injection hc with hc
      subst hc
      decide
    · intro c hc
      rw [← List.head?_reverse] at hc
      simp only [String.data_append, hfen, List.reverse_append] at hc
      rw [show (['分', '钟'] : List Char).reverse = ['钟', '分'] from rfl] at hc
      simp only [List.cons_append, List.head?_cons, Option.some.injEq] at hc
      subst hc
      decide
  case isFalse h =>
    obtain ⟨hne, hdig, _⟩ := natChars_spec i.toNat
    obtain ⟨a, rest, hf⟩ := List.exists_cons_of_ne_nil hne
    apply goodField_intro
    · simp [natStr, hfen]
    · intro c hc
      simp only [String.data_append, hfen, natStr, mk_data, List.mem_append] at hc
      rcases hc with hc | hc
      · obtain ⟨_, hp, hnl, _, _⟩ := isDigitCh_facts (hdig c hc)
        exact ⟨hp, hnl⟩
      · simp only [List.mem_cons, List.not_mem_nil, or_false] at hc
        rcases hc with hc | hc <;> (subst hc; exact ⟨by decide, by decide⟩)
    · intro c hc
      simp only [String.data_append, natStr, mk_data, hf, List.cons_append,
        List.head?_cons, Option.some.injEq] at hc
      subst hc
      obtain ⟨hws, _, _, _, _⟩ := isDigitCh_facts (hdig a (by rw [hf]; simp))
      exact hws
    · intro c hc
      rw [← List.head?_reverse] at hc
      simp only [String.data_append, hfen, List.reverse_append] at hc
      rw [show (['分', '钟'] : List Char).reverse = ['钟', '分'] from rfl] at hc
      simp only [List.cons_append, List.head?_cons, Option.some.injEq] at hc
      subst hc
      decide

theorem rowMatchKeyB_rowCell5 {s e t n d5 : String} (hs : goodField s = true)
    (he : goodField e = true) (ht : goodField t = true)
    (hn : goodField n = true) (hd5 : goodField d5 = true) :
    rowMatchKeyB s e t (rowCell5 s e t n d5) = true := by
  unfold rowMatchKeyB
  rw [jsTrim_rowCell5, jsStartsWith_rowCell5_pipe, jsCols_rowCell5 hs he ht hn hd5]
  simp

theorem dupPred_false_of_not_includes {l s e t : String}
    (h : jsIncludes l (needleFor s e t) = false) :
    (jsStartsWith (jsTrim l) pipeStr && jsIncludes (jsTrim l) (needleFor s e t))
      = false := by
  cases hinc : jsIncludes (jsTrim l) (needleFor s e t) with
  | false => simp [hinc]
  | true => exact absurd (jsTrim_includes_mono hinc) (by simp [h])

theorem dupPred_true_rowCell5 (s e t n d5 : String) :
    (jsStartsWith (jsTrim (rowCell5 s e t n d5)) pipeStr &&
      jsIncludes (jsTrim (rowCell5 s e t n d5)) (needleFor s e t)) = true := by
  rw [jsTrim_rowCell5, jsStartsWith_rowCell5_pipe, rowCell5_includes_needle]
  rfl

theorem jsIncludes_self (s : String) : jsIncludes s s = true :=
  (jsIncludes_iff s s).mpr (List.infix_refl _)

theorem jsIncludes_false_of_absent {l sub : String} {ch : Char}
    (hl : ch ∉ l.data) (hsub : ch ∈ sub.data) : jsIncludes l sub = false := by
  apply jsIncludes_of_count_lt (c := ch)
  have h1 : l.data.count ch = 0 := List.count_eq_zero.mpr hl
  have h2 : sub.data.count ch ≠ 0 := by
    simp only [ne_eq, List.count_eq_zero]
    exact fun hh => hh hsub
  omega

theorem rowCell5_ne_empty (s e t n d5 : String) : ¬ rowCell5 s e t n d5 = "" := by
  intro hh
  have hd : (rowCell5 s e t n d5).data = [] := by rw [hh]
  rw [rowCell5_data] at hd
  simp at hd

/-! ## Foundations: parse row steps -/

theorem parseRowStep_skip (acc : List ParsedEntry) (l : String)
    (h : jsStartsWith (jsTrim l) pipeStr = false) : parseRowStep acc l = acc := by
  unfold parseRowStep
  rw [if_pos (Or.inr h)]

theorem parseRowStep_blank (acc : List ParsedEntry) : parseRowStep acc "" = acc := rfl

theorem parseRowStep_header (acc : List ParsedEntry) :
    parseRowStep acc headerRowStr = acc := by
  unfold parseRowStep
  rw [if_neg (by decide), if_neg (by decide)]

theorem parseRowStep_sep (acc : List ParsedEntry) :
    parseRowStep acc sepRowStr = acc := by
  unfold parseRowStep
  rw [if_neg (by decide), if_neg (by decide)]

theorem parseRowStep_row (acc : List ParsedEntry) {s e t n d5 : String}
    (hs : goodField s = true) (he : goodField e = true) (ht : goodField t = true)
    (hn : goodField n = true) (hd5 : goodField d5 = true)
    (hs_head : ¬ s = "开始时间") (hs_dash : jsIncludes s "---" = false) :
    parseRowStep acc (rowCell5 s e t n d5) =
      acc ++ [⟨s, e, t,
        match matchDuration d5 with
        | some d => (d : Int)
        | none => calculateTimeDifference s e⟩] := by
  unfold parseRowStep
  rw [if_neg (by
    rw [jsTrim_rowCell5]
    push_neg
    exact ⟨rowCell5_ne_empty s e t n d5, by rw [jsStartsWith_rowCell5_pipe]; simp⟩)]
  rw [jsTrim_rowCell5, jsCols_rowCell5 hs he ht hn hd5]
  rw [if_pos (by
    refine ⟨by simp, ?_, ?_⟩
    · simpa using hs_head
    · simpa using hs_dash)]
  simp

/-! ## Foundations: the fresh-file save/parse pipeline -/

theorem header_not_in_dated_heading {ds : String} (hpipe : '|' ∉ ds.data) :
    jsIncludes ("# " ++ ds) headerRowStr = false := by
  refine jsIncludes_false_of_absent ?_ (show ('|' : Char) ∈ headerRowStr.data by decide)
  intro hmem
  rw [String.data_append] at hmem
  rcases List.mem_append.mp hmem with h | h
  · revert h
    decide
  · exact hpipe h

theorem marker_not_in_dated_heading {ds : String} (hhash : '#' ∉ ds.data) :
    jsIncludes ("# " ++ ds) markerStr = false := by
  apply jsIncludes_of_count_lt (c := '#')
  have h1 : ("# " ++ ds).data.count '#' = 1 := by
    rw [String.data_append, List.count_append,
      show (("# " : String)).data.count '#' = 1 from by decide,
      List.count_eq_zero.mpr hhash]
  have h2 : markerStr.data.count '#' = 2 := by decide
  omega

theorem findIdx?_newFileLines_header {ds : String} (hpipe : '|' ∉ ds.data) :
    (newFileLines ds).findIdx? (fun l => jsIncludes l headerRowStr) = some 5 := by
  have h0 := header_not_in_dated_heading hpipe
  have h1 : jsIncludes "" headerRowStr = false := by decide
  have h2 : jsIncludes markerStr headerRowStr = false := by decide
  have h3 : jsIncludes headerRowStr headerRowStr = true := jsIncludes_self _
  unfold newFileLines
  simp [List.findIdx?_cons, h0, h1, h2, h3]

theorem saveNew_eval {w : Int} {ds s e t n : String} {dur? : Option Int}
    (hpipe : '|' ∉ ds.data) :
    saveLogEntryLines w none ds s e t n dur? =
      ["# " ++ ds, "", "", markerStr, "", headerRowStr, sepRowStr,
        logEntryRow w s e t n dur?, ""] := by
  show appendRowLines w (newFileLines ds) s e t n dur? = _
  unfold appendRowLines
  rw [findIdx?_newFileLines_header hpipe]
  have hscan : ((newFileLines ds).drop (5 + 2)).any (fun l =>
      jsStartsWith (jsTrim l) pipeStr &&
        jsIncludes (jsTrim l) (needleFor s e t)) = false := rfl
  simp only [hscan, Bool.false_eq_true, if_false]
  rfl

theorem parse_dated_doc {ds s e t n d5 : String} (hhash : '#' ∉ ds.data)
    (hs : goodField s = true) (he : goodField e = true) (ht : goodField t = true)
    (hn : goodField n = true) (hd5 : goodField d5 = true)
    (hs_head : ¬ s = "开始时间") (hs_dash : jsIncludes s "---" = false) :
    parseLogFileLines ["# " ++ ds, "", "", markerStr, "", headerRowStr, sepRowStr,
      rowCell5 s e t n d5, ""] =
      [⟨s, e, t,
        match matchDuration d5 with
        | some d => (d : Int)
        | none => calculateTimeDifference s e⟩] := by
  unfold parseLogFileLines
  have h0 := marker_not_in_dated_heading hhash
  have h1 : jsIncludes "" markerStr = false := by decide
  have h2 : jsIncludes markerStr markerStr = true := jsIncludes_self _
  rw [show (["# " ++ ds, "", "", markerStr, "", headerRowStr, sepRowStr,
      rowCell5 s e t n d5, ""].findIdx? (fun l => jsIncludes l markerStr)) = some 3 by
    simp [List.findIdx?_cons, h0, h1, h2]]
  show ([headerRowStr, sepRowStr, rowCell5 s e t n d5, ""].foldl parseRowStep []) = _
  simp only [List.foldl_cons, List.foldl_nil]
  rw [parseRowStep_header, parseRowStep_sep,
    parseRowStep_row [] hs he ht hn hd5 hs_head hs_dash, parseRowStep_blank]
  simp

/-! ## Claim C3 -/

/-- Claim C3 (amended): for every entry with positive duration and
well-formed fields (non-empty, free of `|` and newline, trimmed, the start
time neither the header literal `开始时间` nor containing `---`), parsing
the document that `saveLogEntry` produces from an absent file yields exactly
that single entry, with the same `startTime`, `endTime`, `tag` and
`duration`. The positivity restriction is forced by the
`durationMinutes || workTime` fallback (see the counterexample), the field
restrictions by the pipe-delimited round trip. -/
theorem c3_roundtrip_single_entry (w : Int) (ds s e t n : String) (d : Int)
    (hpipe : '|' ∉ ds.data) (hhash : '#' ∉ ds.data)
    (hs : goodField s = true) (he : goodField e = true) (ht : goodField t = true)
    (hn : goodField n = true)
    (hs_head : ¬ s = "开始时间") (hs_dash : jsIncludes s "---" = false)
    (hd : 0 < d) :
    parseLogFileLines (saveLogEntryLines w none ds s e t n (some d)) =
      [⟨s, e, t, d⟩] := by
  have hfd : finalDurationMinutes w (some d) = d := by
    show (if d = 0 then w else d) = d
    rw [if_neg (by omega)]
  have hint : intStr d = natStr d.toNat := by
    unfold intStr
    rw [if_neg (by omega)]
  have hrow : logEntryRow w s e t n (some d) =
      rowCell5 s e t n (natStr d.toNat ++ "分钟") := by
    unfold logEntryRow
    rw [hfd, hint]
  have hd5 : goodField (natStr d.toNat ++ "分钟") = true := by
    rw [← hint]
    exact goodField_durText d
  rw [saveNew_eval hpipe, hrow, parse_dated_doc hhash hs he ht hn hd5 hs_head hs_dash,
    matchDuration_natStr d.toNat]
  simp [Int.toNat_of_nonneg hd.le]

/-- Claim C3 witness: the round-trip theorem applied at a concrete entry. -/
theorem c3_roundtrip_single_entry_witness :
    parseLogFileLines (saveLogEntryLines 25 none "2025-10-11" "09:00:00" "09:25:00"
      "工作" "自动记录的完整番茄钟" (some 25)) =
      [⟨"09:00:00", "09:25:00", "工作", 25⟩] :=
  c3_roundtrip_single_entry 25 "2025-10-11" "09:00:00" "09:25:00" "工作"
    "自动记录的完整番茄钟" 25 (by decide) (by decide) (by decide) (by decide)
    (by decide) (by decide) (by decide) (by decide) (by decide)

/-- Claim C3 counterexample: the round trip as stated fails for the valid
entry with `durationMinutes = 0` — the JS fallback
`durationMinutes || workTime` replaces 0 by the configured work time, so the
parsed duration is 25, not 0. -/
theorem c3_counterexample :
    parseLogFileLines (saveLogEntryLines 25 none "2025-10-11" "09:00:00" "10:00:00"
      "工作" "备注" (some 0)) = [⟨"09:00:00", "10:00:00", "工作", 25⟩] ∧
    ¬ parseLogFileLines (saveLogEntryLines 25 none "2025-10-11" "09:00:00" "10:00:00"
      "工作" "备注" (some 0)) = [⟨"09:00:00", "10:00:00", "工作", 0⟩] := by
  constructor
  · decide
  · decide

/-! ## Foundations: appendRowLines evaluation -/

theorem logEntryRow_eq (w : Int) (s e t n : String) (dur? : Option Int) :
    logEntryRow w s e t n dur? =
      rowCell5 s e t n (intStr (finalDurationMinutes w dur?) ++ "分钟") := rfl

theorem findIdx?_take_of_lt {L : List α} {p : α → Bool} {i k : Nat}
    (h : L.findIdx? p = some i) (hk : i < k) : (L.take k).findIdx? p = some i := by
  rw [List.findIdx?_eq_some_iff_getElem] at h ⊢
  obtain ⟨hlen, hp, hmin⟩ := h
  refine ⟨by simp [List.length_take]; omega, by simpa using hp, ?_⟩
  intro j hj
  simpa using hmin j hj

theorem appendRow_insert_eval {w : Int} {L : List String} {s e t n : String}
    {dur? : Option Int} {i : Nat}
    (hidx : L.findIdx? (fun l => jsIncludes l headerRowStr) = some i)
    (hscan : (L.drop (i + 2)).any (fun l =>
      jsStartsWith (jsTrim l) pipeStr &&
        jsIncludes (jsTrim l) (needleFor s e t)) = false) :
    appendRowLines w L s e t n dur? =
      L.take (i + 2) ++ logEntryRow w s e t n dur? :: L.drop (i + 2) := by
  unfold appendRowLines
  rw [hidx]
  simp only [hscan, Bool.false_eq_true, if_false]
  rfl

theorem appendRow_dup_eval {w : Int} {L : List String} {s e t n : String}
    {dur? : Option Int} {i : Nat}
    (hidx : L.findIdx? (fun l => jsIncludes l headerRowStr) = some i)
    (hscan : (L.drop (i + 2)).any (fun l =>
      jsStartsWith (jsTrim l) pipeStr &&
        jsIncludes (jsTrim l) (needleFor s e t)) = true) :
    appendRowLines w L s e t n dur? = L := by
  unfold appendRowLines
  rw [hidx]
  simp only [hscan, if_true]

theorem ensureTable_of_marker {L : List String}
    (hmk : L.any (fun l => jsIncludes l markerStr) = true) :
    ensureTableLines L = L := by
  unfold ensureTableLines
  rw [if_pos hmk]

/-! ## Claim C2 -/

/-- Claim C2 (amended): on a document that contains the record heading and
the header row (the header row not in the final two lines), that has no line
containing the formatted needle `| startTime | endTime | tag |` and no data
row whose first three columns already equal the triple, appending an entry
with well-formed fields twice leaves exactly one data row matching the
triple, and the second application returns the content unchanged. The
original claim's unrestricted quantification over documents fails (see the
counterexample): the duplicate check is substring-based and per-line, so
pre-existing duplicate or needle-containing rows violate it. -/
theorem c2_append_idempotent (w : Int) (L : List String) (s e t n : String)
    (dur? : Option Int) (i : Nat)
    (hmk : L.any (fun l => jsIncludes l markerStr) = true)
    (hidx : L.findIdx? (fun l => jsIncludes l headerRowStr) = some i)
    (hlen : i + 2 ≤ L.length)
    (hnoNeedle : ∀ l ∈ L, jsIncludes l (needleFor s e t) = false)
    (hnoMatch : ∀ l ∈ L, rowMatchKeyB s e t l = false)
    (hs : goodField s = true) (he : goodField e = true) (ht : goodField t = true)
    (hn : goodField n = true) :
    saveLogEntryLines w (some (saveLogEntryLines w (some L) "" s e t n dur?)) ""
        s e t n dur? = saveLogEntryLines w (some L) "" s e t n dur? ∧
    (saveLogEntryLines w (some L) "" s e t n dur?).countP (rowMatchKeyB s e t) = 1 := by
  have hd5 : goodField (intStr (finalDurationMinutes w dur?) ++ "分钟") = true :=
    goodField_durText _
  have hscan1 : (L.drop (i + 2)).any (fun l =>
      jsStartsWith (jsTrim l) pipeStr &&
        jsIncludes (jsTrim l) (needleFor s e t)) = false := by
    rw [List.any_eq_false]
    intro x hx hpx
    rw [dupPred_false_of_not_includes (hnoNeedle x (List.mem_of_mem_drop hx))] at hpx
    exact absurd hpx (by simp)
  have hL1 : saveLogEntryLines w (some L) "" s e t n dur? =
      L.take (i + 2) ++ logEntryRow w s e t n dur? :: L.drop (i + 2) := by
    show appendRowLines w (ensureTableLines L) s e t n dur? = _
    rw [ensureTable_of_marker hmk]
    exact appendRow_insert_eval hidx hscan1
  have htklen : (L.take (i + 2)).length = i + 2 := by
    rw [List.length_take]
    omega
  have hmk1 : (L.take (i + 2) ++ logEntryRow w s e t n dur? :: L.drop (i + 2)).any
      (fun l => jsIncludes l markerStr) = true := by
    obtain ⟨lm, hlmmem, hlmink⟩ := List.any_eq_true.mp hmk
    rw [List.any_eq_true]
    refine ⟨lm, ?_, hlmink⟩
    rw [← List.take_append_drop (i + 2) L] at hlmmem
    rcases List.mem_append.mp hlmmem with h | h
    · exact List.mem_append.mpr (Or.inl h)
    · exact List.mem_append.mpr (Or.inr (List.mem_cons_of_mem _ h))
  have hidx1 : (L.take (i + 2) ++ logEntryRow w s e t n dur? :: L.drop (i + 2)).findIdx?
      (fun l => jsIncludes l headerRowStr) = some i := by
    rw [List.findIdx?_append, findIdx?_take_of_lt hidx (by omega)]
    rfl
  have hdrop1 : (L.take (i + 2) ++ logEntryRow w s e t n dur? :: L.drop (i + 2)).drop
      (i + 2) = logEntryRow w s e t n dur? :: L.drop (i + 2) :=
    List.drop_left' htklen
  constructor
  · rw [hL1]
    show appendRowLines w (ensureTableLines _) s e t n dur? = _
    rw [ensureTable_of_marker hmk1]
    apply appendRow_dup_eval hidx1
    rw [hdrop1, List.any_cons, logEntryRow_eq, dupPred_true_rowCell5]
    rfl
  · rw [hL1, List.countP_append, List.countP_cons]
    have h0 : (L.take (i + 2)).countP (rowMatchKeyB s e t) = 0 := by
      rw [List.countP_eq_zero]
      intro a ha hpa
      rw [hnoMatch a (List.mem_of_mem_take ha)] at hpa
      exact absurd hpa (by simp)
    have h1 : (L.drop (i + 2)).countP (rowMatchKeyB s e t) = 0 := by
      rw [List.countP_eq_zero]
      intro a ha hpa
      rw [hnoMatch a (List.mem_of_mem_drop ha)] at hpa
      exact absurd hpa (by simp)
    rw [h0, h1, logEntryRow_eq, if_pos (rowMatchKeyB_rowCell5 hs he ht hn hd5)]

/-- Claim C2 witness: the idempotence theorem applied to a fresh table. -/
theorem c2_append_idempotent_witness :
    saveLogEntryLines 25 (some (saveLogEntryLines 25
        (some [markerStr, "", headerRowStr, sepRowStr, ""]) "" "09:00:00" "09:25:00"
        "工作" "自动" (some 25))) "" "09:00:00" "09:25:00" "工作" "自动" (some 25) =
      saveLogEntryLines 25 (some [markerStr, "", headerRowStr, sepRowStr, ""]) ""
        "09:00:00" "09:25:00" "工作" "自动" (some 25) ∧
    (saveLogEntryLines 25 (some [markerStr, "", headerRowStr, sepRowStr, ""]) ""
        "09:00:00" "09:25:00" "工作" "自动" (some 25)).countP
      (rowMatchKeyB "09:00:00" "09:25:00" "工作") = 1 :=
  c2_append_idempotent 25 [markerStr, "", headerRowStr, sepRowStr, ""] "09:00:00"
    "09:25:00" "工作" "自动" (some 25) 2 (by decide) (by decide) (by decide)
    (by decide) (by decide) (by decide) (by decide) (by decide) (by decide)

/-- Claim C2 counterexample: a document whose table already holds the same
row twice is left unchanged by two appends and has two — not one — data rows
for the triple, refuting the claim's universal quantification over document
contents. -/
theorem c2_counterexample :
    saveLogEntryLines 25 (some (saveLogEntryLines 25 (some [markerStr, "",
        headerRowStr, sepRowStr, "| 09:00:00 | 09:25:00 | 工作 | 自动 | 25分钟 |",
        "| 09:00:00 | 09:25:00 | 工作 | 自动 | 25分钟 |"]) "" "09:00:00" "09:25:00"
        "工作" "自动" (some 25))) "" "09:00:00" "09:25:00" "工作" "自动" (some 25) =
      [markerStr, "", headerRowStr, sepRowStr,
        "| 09:00:00 | 09:25:00 | 工作 | 自动 | 25分钟 |",
        "| 09:00:00 | 09:25:00 | 工作 | 自动 | 25分钟 |"] ∧
    ¬ ([markerStr, "", headerRowStr, sepRowStr,
        "| 09:00:00 | 09:25:00 | 工作 | 自动 | 25分钟 |",
        "| 09:00:00 | 09:25:00 | 工作 | 自动 | 25分钟 |"].countP
      (rowMatchKeyB "09:00:00" "09:25:00" "工作") = 1) := by
  constructor
  · decide
  · decide

/-! ## Claim C10 -/

/-- Claim C10 (amended): when some line at or after two lines past the first
header-row line starts (after trimming) with `|` and contains the formatted
substring `| startTime | endTime | tag |`, `saveLogEntry` discards the new
entry entirely — the document is unchanged and the differing notes and
duration are never written. The original claim's column-based trigger fails:
a row whose columns match the triple but is formatted without the standard
spacing does not contain the needle, and the entry is inserted anyway (see
the counterexample). -/
theorem c10_duplicate_discards_entry (w : Int) (L : List String)
    (s e t n : String) (dur? : Option Int) (i : Nat)
    (hmk : L.any (fun l => jsIncludes l markerStr) = true)
    (hidx : L.findIdx? (fun l => jsIncludes l headerRowStr) = some i)
    (hdup : ∃ l ∈ L.drop (i + 2), (jsStartsWith (jsTrim l) pipeStr &&
        jsIncludes (jsTrim l) (needleFor s e t)) = true) :
    saveLogEntryLines w (some L) "" s e t n dur? = L := by
  show appendRowLines w (ensureTableLines L) s e t n dur? = L
  rw [ensureTable_of_marker hmk]
  apply appendRow_dup_eval hidx
  rw [List.any_eq_true]
  obtain ⟨l, hl, hpl⟩ := hdup
  exact ⟨l, hl, hpl⟩

/-- Claim C10 witness: a standard-format duplicate row with different notes
and duration blocks the insertion. -/
theorem c10_duplicate_discards_entry_witness :
    saveLogEntryLines 25 (some [markerStr, "", headerRowStr, sepRowStr,
        "| 09:00:00 | 09:30:00 | 学习 | 旧备注 | 99分钟 |"]) "" "09:00:00"
      "09:30:00" "学习" "新备注" (some 30) =
      [markerStr, "", headerRowStr, sepRowStr,
        "| 09:00:00 | 09:30:00 | 学习 | 旧备注 | 99分钟 |"] :=
  c10_duplicate_discards_entry 25 [markerStr, "", headerRowStr, sepRowStr,
      "| 09:00:00 | 09:30:00 | 学习 | 旧备注 | 99分钟 |"] "09:00:00" "09:30:00"
    "学习" "新备注" (some 30) 2 (by decide) (by decide) (by decide)

/-- Claim C10 counterexample: a compactly formatted row whose
`(startTime, endTime, tag)` columns match the new entry's triple does not
contain the spaced needle, so the claimed discard does not happen — the
entry is inserted and the document changes. -/
theorem c10_counterexample :
    rowMatchKeyB "09:00:00" "09:30:00" "学习"
      "|09:00:00|09:30:00|学习|x|30分钟|" = true ∧
    ¬ saveLogEntryLines 25 (some [markerStr, "", headerRowStr, sepRowStr,
        "|09:00:00|09:30:00|学习|x|30分钟|"]) "" "09:00:00" "09:30:00" "学习"
      "autoNote" (some 30) =
      [markerStr, "", headerRowStr, sepRowStr,
        "|09:00:00|09:30:00|学习|x|30分钟|"] := by
  constructor
  · decide
  · decide

/-! ## Claim C4 -/

/-- Claim C4 (amended): a line after the header and separator rows that does
not begin with the `|` delimiter does not stop parsing — the row loop
`continue`s past it, and removing such a line leaves the parse result
unchanged, so lines after it still contribute their entries. The original
claim (parsing stops there and nothing after contributes) is refuted by the
counterexample. -/
theorem c4_parse_skips_non_delimiter_lines (L : List String) (x : String)
    (k i : Nat)
    (hidx : L.findIdx? (fun l => jsIncludes l markerStr) = some i)
    (hx_pipe : jsStartsWith (jsTrim x) pipeStr = false)
    (hk1 : i + 2 ≤ k) (hk2 : k ≤ L.length) :
    parseLogFileLines (L.take k ++ x :: L.drop k) = parseLogFileLines L := by
  have htklen : (L.take k).length = k := by
    rw [List.length_take]
    omega
  unfold parseLogFileLines
  rw [hidx, List.findIdx?_append, findIdx?_take_of_lt hidx (by omega), Option.or_some]
  dsimp only
  rw [List.drop_append_of_le_length (by omega)]
  rw [show (L.drop (i + 2)) = (L.take k).drop (i + 2) ++ L.drop k by
    conv_lhs => rw [← List.take_append_drop k L]
    rw [List.drop_append_of_le_length (by omega)]]
  rw [List.foldl_append, List.foldl_cons, List.foldl_append,
    parseRowStep_skip _ x hx_pipe]

/-- Claim C4 witness: inserting a junk line just after the separator does
not affect the parsed entries. -/
theorem c4_parse_skips_non_delimiter_lines_witness :
    parseLogFileLines ([markerStr, "", headerRowStr, sepRowStr,
        "| 09:00:00 | 09:25:00 | 工作 | n | 25分钟 |"].take 4 ++ "junk line" ::
          [markerStr, "", headerRowStr, sepRowStr,
            "| 09:00:00 | 09:25:00 | 工作 | n | 25分钟 |"].drop 4) =
      parseLogFileLines [markerStr, "", headerRowStr, sepRowStr,
        "| 09:00:00 | 09:25:00 | 工作 | n | 25分钟 |"] :=
  c4_parse_skips_non_delimiter_lines [markerStr, "", headerRowStr, sepRowStr,
      "| 09:00:00 | 09:25:00 | 工作 | n | 25分钟 |"] "junk line" 4 0 (by decide)
    (by decide) (by decide) (by decide)

/-- Claim C4 counterexample: in this document line index 4 (`"junk line"`)
does not begin with `|`, yet the data row after it still contributes an
entry — parsing did not stop. -/
theorem c4_counterexample :
    jsStartsWith (jsTrim "junk line") pipeStr = false ∧
    parseLogFileLines [markerStr, "", headerRowStr, sepRowStr, "junk line",
        "| 09:00:00 | 09:25:00 | 工作 | n | 25分钟 |"] =
      [⟨"09:00:00", "09:25:00", "工作", 25⟩] := by
  constructor
  · decide
  · decide

/-! ## Claim C6 -/

/-- Claim C6 (amended): `updateLogEntry` applied with a key that matches no
data row leaves the content unchanged, and it reports
`'更新失败: 未找到对应的番茄钟记录'` exactly when the record heading is
present in the document; when the heading is absent it returns silently with
no report at all (the claim's unconditional "reports not-found" fails, see
the counterexample). -/
theorem c6_update_nonexistent_key (L : List String) (s e t nn : String)
    (hnomatch : ∀ l ∈ L, rowMatchKeyB s e t l = false) :
    (updateLogEntryLines L s e t nn).1 = L ∧
    ((updateLogEntryLines L s e t nn).2 = some UpdNotice.notFound ↔
      L.any (fun l => jsIncludes l markerStr) = true) := by
  unfold updateLogEntryLines
  cases hidx : L.findIdx? (fun l => jsIncludes l markerStr) with
  | none =>
    refine ⟨rfl, ?_⟩
    constructor
    · intro h
      exact absurd h (by simp)
    · intro h
      obtain ⟨lx, hlx, hplx⟩ := List.any_eq_true.mp h
      rw [List.findIdx?_eq_none_iff.mp hidx lx hlx] at hplx
      exact absurd hplx (by simp)
  | some i =>
    have hfind : (L.drop (i + 2)).findIdx? (rowMatchKeyB s e t) = none :=
      List.findIdx?_eq_none_iff.mpr
        (fun x hx => hnomatch x (List.mem_of_mem_drop hx))
    dsimp only
    rw [hfind]
    refine ⟨rfl, ?_⟩
    constructor
    · intro _
      obtain ⟨hlt, hp, _⟩ := List.findIdx?_eq_some_iff_getElem.mp hidx
      exact List.any_eq_true.mpr ⟨L[i], List.getElem_mem hlt, hp⟩
    · intro _
      rfl

/-- Claim C6 witness: updating a missing key in a well-formed table is a
no-op that reports not-found. -/
theorem c6_update_nonexistent_key_witness :
    (updateLogEntryLines [markerStr, "", headerRowStr, sepRowStr,
        "| 09:00:00 | 09:25:00 | 工作 | 自动 | 25分钟 |"] "10:00:00" "10:25:00"
      "工作" "新备注").1 =
      [markerStr, "", headerRowStr, sepRowStr,
        "| 09:00:00 | 09:25:00 | 工作 | 自动 | 25分钟 |"] ∧
    ((updateLogEntryLines [markerStr, "", headerRowStr, sepRowStr,
        "| 09:00:00 | 09:25:00 | 工作 | 自动 | 25分钟 |"] "10:00:00" "10:25:00"
      "工作" "新备注").2 = some UpdNotice.notFound ↔
      [markerStr, "", headerRowStr, sepRowStr,
        "| 09:00:00 | 09:25:00 | 工作 | 自动 | 25分钟 |"].any
        (fun l => jsIncludes l markerStr) = true) :=
  c6_update_nonexistent_key [markerStr, "", headerRowStr, sepRowStr,
      "| 09:00:00 | 09:25:00 | 工作 | 自动 | 25分钟 |"] "10:00:00" "10:25:00"
    "工作" "新备注" (by decide)

/-- Claim C6 counterexample: on a document without the record heading a
non-matching key leaves the content unchanged but produces no notice at
all — `updateLogEntry` returns from the `tableStartIndex === -1` branch
without reporting not-found. -/
theorem c6_counterexample :
    updateLogEntryLines ["hello"] "09:00:00" "09:25:00" "工作" "n" =
      (["hello"], none) ∧
    ¬ (updateLogEntryLines ["hello"] "09:00:00" "09:25:00" "工作" "n").2 =
      some UpdNotice.notFound := by
  constructor
  · decide
  · decide

/-! ## Foundations: timer steps -/

theorem tick_noop_of_completing (cfg : TimerSettings) (st : TimerState)
    (h : st.isProcessingCompletion = true) : tick cfg st = st := by
  unfold tick
  rw [if_pos (Or.inr h)]

theorem tick_noop_of_stopped (cfg : TimerSettings) (st : TimerState)
    (h : st.isRunning = false) : tick cfg st = st := by
  unfold tick
  rw [if_pos (Or.inl h)]

theorem effFocusMinutes_pos (cfg : TimerSettings) : 0 < effFocusMinutes cfg :=
  lt_of_lt_of_le one_pos (le_max_left _ _)

theorem effBreakMinutes_pos (cfg : TimerSettings) : 0 < effBreakMinutes cfg :=
  lt_of_lt_of_le one_pos (le_max_left _ _)

theorem initializeTimerValues_timeLeft_pos (cfg : TimerSettings) (st : TimerState) :
    0 < (initializeTimerValues cfg st).timeLeft := by
  unfold initializeTimerValues
  split
  · exact mul_pos (effFocusMinutes_pos cfg) (by norm_num)
  · exact mul_pos (effBreakMinutes_pos cfg) (by norm_num)

theorem initializeTimerValues_completionNotices (cfg : TimerSettings)
    (st : TimerState) :
    (initializeTimerValues cfg st).completionNotices = st.completionNotices := by
  unfold initializeTimerValues
  split <;> rfl

theorem initializeTimerValues_logWrites (cfg : TimerSettings) (st : TimerState) :
    (initializeTimerValues cfg st).logWrites = st.logWrites := by
  unfold initializeTimerValues
  split <;> rfl

theorem initializeTimerValues_isFocusMode (cfg : TimerSettings) (st : TimerState) :
    (initializeTimerValues cfg st).isFocusMode = st.isFocusMode := by
  unfold initializeTimerValues
  split <;> rfl

theorem initializeTimerValues_isRunning (cfg : TimerSettings) (st : TimerState) :
    (initializeTimerValues cfg st).isRunning = st.isRunning := by
  unfold initializeTimerValues
  split <;> rfl

theorem initializeTimerValues_isProcessingCompletion (cfg : TimerSettings)
    (st : TimerState) :
    (initializeTimerValues cfg st).isProcessingCompletion =
      st.isProcessingCompletion := by
  unfold initializeTimerValues
  split <;> rfl

theorem tick_decrement (cfg : TimerSettings) (st : TimerState)
    (h1 : st.isRunning = true) (h2 : st.isProcessingCompletion = false)
    (h3 : ¬ max 0 (st.timeLeft - 1) = 0) :
    tick cfg st = { st with timeLeft := max 0 (st.timeLeft - 1) } := by
  unfold tick
  rw [if_neg (by simp [h1, h2])]
  dsimp only
  rw [if_neg h3]

theorem tick_complete (cfg : TimerSettings) (st : TimerState)
    (h1 : st.isRunning = true) (h2 : st.isProcessingCompletion = false)
    (h3 : max 0 (st.timeLeft - 1) = 0) :
    (tick cfg st).completionNotices = st.completionNotices + 1 ∧
    (tick cfg st).logWrites =
      st.logWrites + (if st.isFocusMode = true then 1 else 0) ∧
    (tick cfg st).isProcessingCompletion = true ∧
    (tick cfg st).isRunning = false ∧
    (tick cfg st).isFocusMode = !st.isFocusMode := by
  unfold tick
  rw [if_neg (by simp [h1, h2])]
  dsimp only
  rw [if_pos h3]
  cases hm : st.isFocusMode with
  | true =>
    rw [if_pos (by simp [clearTimer, hm])]
    refine ⟨?_, ?_, ?_, ?_, ?_⟩ <;>
      simp [initializeTimerValues_completionNotices, initializeTimerValues_logWrites,
        initializeTimerValues_isFocusMode, initializeTimerValues_isRunning,
        initializeTimerValues_isProcessingCompletion, clearTimer, hm]
  | false =>
    rw [if_neg (by simp [clearTimer, hm])]
    refine ⟨?_, ?_, ?_, ?_, ?_⟩ <;>
      simp [initializeTimerValues_completionNotices, initializeTimerValues_logWrites,
        initializeTimerValues_isFocusMode, initializeTimerValues_isRunning,
        initializeTimerValues_isProcessingCompletion, clearTimer, hm]

theorem tick_countdown (cfg : TimerSettings) :
    ∀ (k : Nat) (st : TimerState), st.isRunning = true →
      st.isProcessingCompletion = false → st.timeLeft = (k : Int) + 1 →
      (tick cfg)^[k] st = { st with timeLeft := 1 } := by
  intro k
  induction k with
  | zero =>
    intro st h1 h2 h3
    rw [Function.iterate_zero_apply]
    cases st
    simp only at h3
    simp [h3]
  | succ k ih =>
    intro st h1 h2 h3
    rw [Function.iterate_succ_apply]
    have hmax : max 0 (st.timeLeft - 1) = (k : Int) + 1 := by
      rw [h3]
      push_cast
      rw [show ((k : Int) + 1 + 1 - 1) = (k : Int) + 1 by ring]
      exact max_eq_right (by positivity)
    have hstep : tick cfg st = { st with timeLeft := (k : Int) + 1 } := by
      rw [tick_decrement cfg st h1 h2 (by rw [hmax]; positivity), hmax]
    rw [hstep]
    exact ih _ (by simp [h1]) (by simp [h2]) (by simp)

/-! ## Claim C7 -/

/-- Claim C7: for every positive `workMinutes` setting and non-empty
selected tag, starting the timer in Focus mode re-reads the duration and
sets `remainingSeconds = workMinutes * 60` and `running = true`. -/
theorem c7_start_focus_sets_work_seconds (cfg : TimerSettings) (tag : String)
    (st : TimerState) (hmode : st.isFocusMode = true) (htag : ¬ tag = "")
    (hw : 0 < cfg.workTime) :
    (startTimer cfg tag st).timeLeft = cfg.workTime * 60 ∧
    (startTimer cfg tag st).isRunning = true := by
  have heff : effFocusMinutes cfg = cfg.workTime := by
    unfold effFocusMinutes
    rw [if_neg (by omega), max_eq_right (by omega)]
  unfold startTimer
  rw [if_neg (by simp [htag])]
  unfold initializeTimerValues
  have hcond : ({ st with currentTag := tag, isRunning := true } :
      TimerState).isFocusMode = true := hmode
  rw [if_pos hcond]
  constructor
  · show effFocusMinutes cfg * 60 = cfg.workTime * 60
    rw [heff]
  · rfl

/-- Claim C7 witness: starting with the default settings and the tag `工作`
from the initial state yields 1500 seconds, running. -/
theorem c7_start_focus_sets_work_seconds_witness :
    (startTimer ⟨25, 5⟩ "工作" (initialState ⟨25, 5⟩)).timeLeft = 25 * 60 ∧
    (startTimer ⟨25, 5⟩ "工作" (initialState ⟨25, 5⟩)).isRunning = true :=
  c7_start_focus_sets_work_seconds ⟨25, 5⟩ "工作" (initialState ⟨25, 5⟩)
    (by decide) (by decide) (by decide)

/-! ## Claim C1 -/

/-- Claim C1: from a running, non-completing state with
`remainingSeconds = n ≥ 1`, the countdown reaches exactly 1 after `n - 1`
ticks, and the `n`-th tick reaches 0 and performs the completion handling
exactly once: one completion notice, one log write exactly when the mode
was Focus, the completing flag set, the mode flipped — and any further tick
on the completing state is a no-op (as is any tick on any state whose
completing flag is set). -/
theorem c1_tick_completes_once (cfg : TimerSettings) (st : TimerState) (n : Nat)
    (h1 : st.isRunning = true) (h2 : st.isProcessingCompletion = false)
    (h3 : st.timeLeft = (n : Int)) (hn : 1 ≤ n) :
    ((tick cfg)^[n - 1] st).timeLeft = 1 ∧
    ((tick cfg)^[n] st).completionNotices = st.completionNotices + 1 ∧
    ((tick cfg)^[n] st).logWrites =
      st.logWrites + (if st.isFocusMode = true then 1 else 0) ∧
    ((tick cfg)^[n] st).isProcessingCompletion = true ∧
    ((tick cfg)^[n] st).isFocusMode = (!st.isFocusMode) ∧
    tick cfg ((tick cfg)^[n] st) = (tick cfg)^[n] st ∧
    (∀ s2 : TimerState, s2.isProcessingCompletion = true → tick cfg s2 = s2) := by
  obtain ⟨k, rfl⟩ : ∃ k, n = k + 1 := ⟨n - 1, by omega⟩
  have hcd := tick_countdown cfg k st h1 h2 (by rw [h3]; push_cast; ring)
  have hlast : (tick cfg)^[k + 1] st = tick cfg { st with timeLeft := 1 } := by
    rw [Function.iterate_succ_apply', hcd]
  have hcomp := tick_complete cfg { st with timeLeft := 1 } (by simp [h1])
    (by simp [h2]) (by simp)
  simp only [show ({ st with timeLeft := 1 } : TimerState).completionNotices =
      st.completionNotices from rfl,
    show ({ st with timeLeft := 1 } : TimerState).logWrites = st.logWrites from rfl,
    show ({ st with timeLeft := 1 } : TimerState).isFocusMode =
      st.isFocusMode from rfl] at hcomp
  obtain ⟨q1, q2, q3, q4, q5⟩ := hcomp
  refine ⟨by simp [hcd], ?_, ?_, ?_, ?_, ?_, ?_⟩
  · rw [hlast, q1]
  · rw [hlast, q2]
  · rw [hlast, q3]
  · rw [hlast, q5]
  · rw [hlast]
    exact tick_noop_of_completing cfg _ (by rw [← hlast, hlast, q3])
  · exact fun s2 hs2 => tick_noop_of_completing cfg s2 hs2

/-- Claim C1 witness: three ticks from a running focus state with 3 seconds
left complete exactly once and the next tick is a no-op. -/
theorem c1_tick_completes_once_witness :
    ((tick ⟨25, 5⟩)^[3 - 1] { startTimer ⟨25, 5⟩ "工作" (initialState ⟨25, 5⟩) with
        timeLeft := 3 }).timeLeft = 1 ∧
    ((tick ⟨25, 5⟩)^[3] { startTimer ⟨25, 5⟩ "工作" (initialState ⟨25, 5⟩) with
        timeLeft := 3 }).completionNotices =
      ({ startTimer ⟨25, 5⟩ "工作" (initialState ⟨25, 5⟩) with
        timeLeft := 3 } : TimerState).completionNotices + 1 ∧
    tick ⟨25, 5⟩ ((tick ⟨25, 5⟩)^[3] { startTimer ⟨25, 5⟩ "工作"
        (initialState ⟨25, 5⟩) with timeLeft := 3 }) =
      (tick ⟨25, 5⟩)^[3] { startTimer ⟨25, 5⟩ "工作" (initialState ⟨25, 5⟩) with
        timeLeft := 3 } := by
  obtain ⟨w1, w2, _, _, _, w6, _⟩ := c1_tick_completes_once ⟨25, 5⟩
    { startTimer ⟨25, 5⟩ "工作" (initialState ⟨25, 5⟩) with timeLeft := 3 } 3
    (by decide) (by decide) (by decide) (by decide)
  exact ⟨w1, w2, w6⟩

/-! ## Claim C5 -/

theorem reachable_timeLeft_nonneg {s : TimerState} (h : Reachable s) :
    0 ≤ s.timeLeft := by
  induction h with
  | init cfg => exact le_of_lt (initializeTimerValues_timeLeft_pos _ _)
  | start cfg tag h ih =>
    unfold startTimer
    split
    · exact ih
    · exact le_of_lt (initializeTimerValues_timeLeft_pos _ _)
  | tickStep cfg h ih =>
    unfold tick
    split
    · exact ih
    · dsimp only
      split
      · split
        · exact le_of_lt (initializeTimerValues_timeLeft_pos _ _)
        · exact le_of_lt (initializeTimerValues_timeLeft_pos _ _)
      · exact le_max_left _ _
  | pause h ih => exact ih
  | skip cfg h ih => exact le_of_lt (initializeTimerValues_timeLeft_pos _ _)

/-- Claim C5 (amended): in every reachable timer state `remainingSeconds`
is a non-negative integer; a tick on a running, non-completing state whose
result is still non-completing does not increase `remainingSeconds`; pause
preserves `remainingSeconds` and the mode; start never flips the mode; and
the tick callback flips the mode only when the decremented
`remainingSeconds` is exactly 0. The original claim fails because `skip`
flips the mode at any remaining value, and re-starting a running timer
re-arms (and thus can increase) `remainingSeconds` (see the
counterexample). -/
theorem c5_timer_invariants (s : TimerState) (hreach : Reachable s) :
    0 ≤ s.timeLeft ∧
    (∀ cfg, s.isRunning = true → s.isProcessingCompletion = false →
      (tick cfg s).isProcessingCompletion = false →
      (tick cfg s).timeLeft ≤ s.timeLeft) ∧
    (pauseTimer s).timeLeft = s.timeLeft ∧
    (pauseTimer s).isFocusMode = s.isFocusMode ∧
    (∀ cfg tag, (startTimer cfg tag s).isFocusMode = s.isFocusMode) ∧
    (∀ cfg, ¬ (tick cfg s).isFocusMode = s.isFocusMode →
      max 0 (s.timeLeft - 1) = 0) := by
  have hnn := reachable_timeLeft_nonneg hreach
  refine ⟨hnn, ?_, rfl, rfl, ?_, ?_⟩
  · intro cfg h1 h2 h3
    by_cases hz : max 0 (s.timeLeft - 1) = 0
    · obtain ⟨_, _, hpc, _, _⟩ := tick_complete cfg s h1 h2 hz
      rw [hpc] at h3
      exact absurd h3 (by simp)
    · rw [tick_decrement cfg s h1 h2 hz]
      exact max_le hnn (by omega)
  · intro cfg tag
    unfold startTimer
    split
    · rfl
    · exact initializeTimerValues_isFocusMode cfg _
  · intro cfg hflip
    cases hrun : s.isRunning with
    | false =>
      rw [tick_noop_of_stopped cfg s hrun] at hflip
      exact absurd rfl hflip
    | true =>
      cases hpc : s.isProcessingCompletion with
      | true =>
        rw [tick_noop_of_completing cfg s hpc] at hflip
        exact absurd rfl hflip
      | false =>
        by_cases hz : max 0 (s.timeLeft - 1) = 0
        · exact hz
        · rw [tick_decrement cfg s hrun hpc hz] at hflip
          exact absurd rfl hflip

/-- Claim C5 witness: the invariants evaluated at the initial state. -/
theorem c5_timer_invariants_witness :
    0 ≤ (initialState ⟨25, 5⟩).timeLeft ∧
    (pauseTimer (initialState ⟨25, 5⟩)).timeLeft =
      (initialState ⟨25, 5⟩).timeLeft := by
  obtain ⟨w1, _, w3, _⟩ := c5_timer_invariants (initialState ⟨25, 5⟩)
    (Reachable.init _)
  exact ⟨w1, w3⟩

/-- Claim C5 counterexample: in the reachable running state right after
start, `skipBreak` flips the mode although `remainingSeconds = 1500 ≠ 0`;
and calling `startTimer` again on the (reachable) running state after one
tick raises `remainingSeconds` from 1499 back to 1500 while `running` stays
true and `completing` stays false — refuting both the "mode only flips at
0" and the monotonicity conjunct of the claim as stated over start, tick,
pause and skip sequences. -/
theorem c5_counterexample :
    Reachable (startTimer ⟨25, 5⟩ "工作" (initialState ⟨25, 5⟩)) ∧
    (startTimer ⟨25, 5⟩ "工作" (initialState ⟨25, 5⟩)).timeLeft = 1500 ∧
    ¬ (startTimer ⟨25, 5⟩ "工作" (initialState ⟨25, 5⟩)).timeLeft = 0 ∧
    ¬ (skipBreak ⟨25, 5⟩ (startTimer ⟨25, 5⟩ "工作"
        (initialState ⟨25, 5⟩))).isFocusMode =
      (startTimer ⟨25, 5⟩ "工作" (initialState ⟨25, 5⟩)).isFocusMode ∧
    Reachable (tick ⟨25, 5⟩ (startTimer ⟨25, 5⟩ "工作" (initialState ⟨25, 5⟩))) ∧
    (tick ⟨25, 5⟩ (startTimer ⟨25, 5⟩ "工作"
        (initialState ⟨25, 5⟩))).isRunning = true ∧
    (tick ⟨25, 5⟩ (startTimer ⟨25, 5⟩ "工作"
        (initialState ⟨25, 5⟩))).isProcessingCompletion = false ∧
    (startTimer ⟨25, 5⟩ "工作" (tick ⟨25, 5⟩ (startTimer ⟨25, 5⟩ "工作"
        (initialState ⟨25, 5⟩)))).isRunning = true ∧
    (startTimer ⟨25, 5⟩ "工作" (tick ⟨25, 5⟩ (startTimer ⟨25, 5⟩ "工作"
        (initialState ⟨25, 5⟩)))).isProcessingCompletion = false ∧
    (tick ⟨25, 5⟩ (startTimer ⟨25, 5⟩ "工作" (initialState ⟨25, 5⟩))).timeLeft <
      (startTimer ⟨25, 5⟩ "工作" (tick ⟨25, 5⟩ (startTimer ⟨25, 5⟩ "工作"
        (initialState ⟨25, 5⟩)))).timeLeft := by
  refine ⟨Reachable.start _ _ (Reachable.init _), by decide, by decide, by decide,
    Reachable.tickStep _ (Reachable.start _ _ (Reachable.init _)), by decide,
    by decide, by decide, by decide, by decide⟩

/-! ## Foundations: yearly statistics folds -/

theorem getD_set_ne {l : List α} {i j : Nat} {a d : α} (h : ¬ i = j) :
    (l.set i a).getD j d = l.getD j d := by
  simp [List.getD_eq_getElem?_getD, List.getElem?_set_ne (by omega : i ≠ j)]

theorem getD_set_self {l : List α} {i : Nat} {a d : α} (h : i < l.length) :
    (l.set i a).getD i d = a := by
  simp [List.getD_eq_getElem?_getD, List.getElem?_set_self h]

theorem foldl_yearlyStep_length (items : List (SimpleDate × List ParsedEntry))
    (acc : YearlyStats) :
    (items.foldl yearlyStep acc).monthlyData.length = acc.monthlyData.length := by
  induction items generalizing acc with
  | nil => rfl
  | cons it rest ih =>
    rw [List.foldl_cons, ih]
    simp [yearlyStep]

theorem foldl_yearlyStep_untouched (items : List (SimpleDate × List ParsedEntry))
    (acc : YearlyStats) (m : Nat) (hm : ∀ it ∈ items, ¬ it.1.month0 = m) :
    (items.foldl yearlyStep acc).monthlyData.getD m ⟨0, 0⟩ =
      acc.monthlyData.getD m ⟨0, 0⟩ := by
  induction items generalizing acc with
  | nil => rfl
  | cons it rest ih =>
    rw [List.foldl_cons, ih _ (fun x hx => hm x (by simp [hx]))]
    exact getD_set_ne (hm it (by simp))

theorem initMonthly_getD {m : Nat} (hm : m < 12) :
    initMonthly.getD m ⟨0, 0⟩ = ⟨m + 1, 0⟩ := by
  simp [initMonthly, List.getD_eq_getElem?_getD, List.getElem?_range hm]

/-! ## Claim C8 -/

/-- Claim C8 (amended): the yearly statistics enumerate only the first day
of each of the twelve months of the current year — not every calendar
date — load each of those log files (an absent file is skipped, contributing
no entries rather than an error), and bucket the total minutes of the loaded
entries by calendar month: bucket `m` (month `m+1`) holds exactly the summed
durations parsed from the first-of-month file of that month, or 0 when that
file is absent. The "every calendar date" part of the original claim is
refuted by the counterexample. -/
theorem c8_yearly_stats_buckets (ps : PathSettings) (y : Nat)
    (vault : String → Option (List String)) (m : Nat) (hm : m < 12) :
    (yearlyDatesToLoad y).length = 12 ∧
    (∀ d ∈ yearlyDatesToLoad y, d.day = 1) ∧
    (calculateYearlyStats (loadYearlyLogData ps y vault)).monthlyData.getD m
        ⟨0, 0⟩ =
      ⟨m + 1,
        match vault (updatePathFor ps ⟨y, m, 1⟩) with
        | some L => sumDurations (parseLogFileLines L)
        | none => 0⟩ := by
  refine ⟨by simp [yearlyDatesToLoad], ?_, ?_⟩
  · intro d hd
    obtain ⟨mo, _, rfl⟩ := List.mem_map.mp hd
    rfl
  · have hload : loadYearlyLogData ps y vault = (List.range 12).filterMap
        (fun mo => (vault (updatePathFor ps ⟨y, mo, 1⟩)).map
          (fun L => (⟨y, mo, 1⟩, parseLogFileLines L))) := by
      unfold loadYearlyLogData yearlyDatesToLoad
      rw [List.filterMap_map]
      rfl
    unfold calculateYearlyStats
    rw [hload, show 12 = (m + 1) + (11 - m) by omega, List.range_add,
      List.filterMap_append, List.foldl_append]
    have hhigh : ∀ it ∈ (((List.range (11 - m)).map fun i => (m + 1) + i).filterMap
        (fun mo => (vault (updatePathFor ps ⟨y, mo, 1⟩)).map
          (fun L => ((⟨y, mo, 1⟩ : SimpleDate), parseLogFileLines L)))),
        ¬ it.1.month0 = m := by
      intro it hit
      obtain ⟨mo, hmo, hsome⟩ := List.mem_filterMap.mp hit
      obtain ⟨j, _, rfl⟩ := List.mem_map.mp hmo
      obtain ⟨L, _, rfl⟩ := Option.map_eq_some'.mp hsome
      simp only []
      omega
    rw [foldl_yearlyStep_untouched _ _ m hhigh]
    rw [List.range_succ, List.filterMap_append, List.foldl_append]
    have hlow : ∀ it ∈ ((List.range m).filterMap
        (fun mo => (vault (updatePathFor ps ⟨y, mo, 1⟩)).map
          (fun L => ((⟨y, mo, 1⟩ : SimpleDate), parseLogFileLines L)))),
        ¬ it.1.month0 = m := by
      intro it hit
      obtain ⟨mo, hmo, hsome⟩ := List.mem_filterMap.mp hit
      have hmo' := List.mem_range.mp hmo
      obtain ⟨L, _, rfl⟩ := Option.map_eq_some'.mp hsome
      simp only []
      omega
    cases hv : vault (updatePathFor ps ⟨y, m, 1⟩) with
    | none =>
      rw [show (([m] : List Nat).filterMap
          (fun mo => (vault (updatePathFor ps ⟨y, mo, 1⟩)).map
            (fun L => ((⟨y, mo, 1⟩ : SimpleDate), parseLogFileLines L)))) = [] by
        simp [List.filterMap, hv]]
      rw [List.foldl_nil, foldl_yearlyStep_untouched _ _ m hlow,
        initMonthly_getD hm]
    | some L =>
      rw [show (([m] : List Nat).filterMap
          (fun mo => (vault (updatePathFor ps ⟨y, mo, 1⟩)).map
            (fun L2 => ((⟨y, mo, 1⟩ : SimpleDate), parseLogFileLines L2)))) =
          [(⟨y, m, 1⟩, parseLogFileLines L)] by
        simp [List.filterMap, hv]]
      rw [List.foldl_cons, List.foldl_nil]
      have hunt := foldl_yearlyStep_untouched ((List.range m).filterMap
        (fun mo => (vault (updatePathFor ps ⟨y, mo, 1⟩)).map
          (fun L2 => ((⟨y, mo, 1⟩ : SimpleDate), parseLogFileLines L2))))
        ⟨0, 0, initMonthly⟩ m hlow
      have hlen := foldl_yearlyStep_length ((List.range m).filterMap
        (fun mo => (vault (updatePathFor ps ⟨y, mo, 1⟩)).map
          (fun L2 => ((⟨y, mo, 1⟩ : SimpleDate), parseLogFileLines L2))))
        ⟨0, 0, initMonthly⟩
      rw [show ∀ st : YearlyStats, (yearlyStep st (⟨y, m, 1⟩, parseLogFileLines L)) =
          { totalMinutes := st.totalMinutes + sumDurations (parseLogFileLines L),
            sessionCount := st.sessionCount + (parseLogFileLines L).length,
            monthlyData := st.monthlyData.set m
              ⟨(st.monthlyData.getD m ⟨0, 0⟩).month,
                sumDurations (parseLogFileLines L)⟩ } from fun st => rfl]
      dsimp only
      rw [getD_set_self (by rw [hlen]; simpa [initMonthly] using hm), hunt,
        initMonthly_getD hm]

/-- Claim C8 witness: with a vault holding only March&apos;s first-of-month
file, bucket 2 holds that file&apos;s minutes. -/
theorem c8_yearly_stats_buckets_witness :
    (yearlyDatesToLoad 2025).length = 12 ∧
    (calculateYearlyStats (loadYearlyLogData ⟨"p", DateFormat.dash⟩ 2025
        (fun p => if p = updatePathFor ⟨"p", DateFormat.dash⟩ ⟨2025, 2, 1⟩
          then some [markerStr, "", headerRowStr, sepRowStr,
            "| 09:00:00 | 09:25:00 | 工作 | 自动 | 25分钟 |"]
          else none))).monthlyData.getD 2 ⟨0, 0⟩ =
      ⟨3, match (fun p => if p = updatePathFor ⟨"p", DateFormat.dash⟩ ⟨2025, 2, 1⟩
          then some [markerStr, "", headerRowStr, sepRowStr,
            "| 09:00:00 | 09:25:00 | 工作 | 自动 | 25分钟 |"]
          else none) (updatePathFor ⟨"p", DateFormat.dash⟩ ⟨2025, 2, 1⟩) with
        | some L => sumDurations (parseLogFileLines L)
        | none => 0⟩ := by
  obtain ⟨w1, _, w3⟩ := c8_yearly_stats_buckets ⟨"p", DateFormat.dash⟩ 2025
    (fun p => if p = updatePathFor ⟨"p", DateFormat.dash⟩ ⟨2025, 2, 1⟩
      then some [markerStr, "", headerRowStr, sepRowStr,
        "| 09:00:00 | 09:25:00 | 工作 | 自动 | 25分钟 |"]
      else none) 2 (by omega)
  exact ⟨w1, w3⟩

/-- Claim C8 counterexample: the yearly enumeration holds twelve dates, and
January 2nd — a calendar date of the year — is not among them, refuting
"enumerate every calendar date of the current year". -/
theorem c8_counterexample :
    (yearlyDatesToLoad 2025).length = 12 ∧
    (⟨2025, 0, 2⟩ : SimpleDate) ∉ yearlyDatesToLoad 2025 := by
  constructor
  · decide
  · decide

/-! ## Claim C9 -/

/-- Claim C9: `updateLogEntry` resolves its file name through the effective
`getFormattedDate` — the class's later, overriding definition, which
produces the ISO `YYYY-MM-DD` date and ignores the `dateFormat` setting (the
first conjunct: the path it reads is independent of `dateFormat`) — while
`saveLogEntry` resolves through `getFileNameDate`, which honours
`dateFormat`. Consequently, with `dateFormat = 'YYYY/MM/DD'` the path
written on save differs from the path read on update (middle conjuncts,
October 11 2025, diary path `01Inbox/daily`), and updating notes on a vault
that holds only the saved file fails with the file-not-found notice
`'无法更新: 日记文件不存在'` (last conjunct). -/
theorem c9_update_path_diverges_from_save_path :
    (∀ (dp : String) (f1 f2 : DateFormat) (d : SimpleDate),
      updatePathFor ⟨dp, f1⟩ d = updatePathFor ⟨dp, f2⟩ d) ∧
    savePathFor ⟨"01Inbox/daily", DateFormat.slash⟩ ⟨2025, 9, 11⟩ =
      "01Inbox/daily/2025/10/2025/10/11.md" ∧
    updatePathFor ⟨"01Inbox/daily", DateFormat.slash⟩ ⟨2025, 9, 11⟩ =
      "01Inbox/daily/2025/10/2025-10-11.md" ∧
    ¬ savePathFor ⟨"01Inbox/daily", DateFormat.slash⟩ ⟨2025, 9, 11⟩ =
      updatePathFor ⟨"01Inbox/daily", DateFormat.slash⟩ ⟨2025, 9, 11⟩ ∧
    (updateLogEntryVault
      (fun p => if p = savePathFor ⟨"01Inbox/daily", DateFormat.slash⟩ ⟨2025, 9, 11⟩
        then some (saveLogEntryLines 25 none "2025/10/11" "09:00:00" "09:25:00"
          "工作" "自动" (some 25))
        else none)
      ⟨"01Inbox/daily", DateFormat.slash⟩ ⟨2025, 9, 11⟩ "09:00:00" "09:25:00"
      "工作" "新备注").2 = some UpdNotice.fileMissing := by
  refine ⟨fun dp f1 f2 d => rfl, by decide, by decide, by decide, by decide⟩

end Tomato
